import Mathlib

/-!
Verification of the script-reference reconciliation engine of the
p5.js project-creator tool (`HTMLManager` in the repository source).

The engine is shallowly embedded as follows.

* Strings are `List Char` (`Str`), so that every operation is executable
  and decidable.
* The five regular expressions of `HTMLManager.P5_PATTERNS` are embedded
  as deterministic matchers (`matchJsdelivr`, `matchCdnjs`, `matchUnpkg`,
  `matchLocalA`, `matchLocalB`).  JavaScript regex backtracking is resolved
  statically: each pattern admits at most one successful decomposition of a
  given input (justifications are given at the definitions), so the
  matchers below compute exactly the capture groups `exec` would return.
  In particular, faithful to the source:
  - the minification marker of the `cdnjs` pattern is a NON-capturing group
    `(?:min\.)?`, so `match[2]` is always `undefined` for it;
  - the versionless local pattern `^lib\/p5\.(min\.)?js$` has the
    minification marker as group 1 (there is no group 2);
  - in `^lib\/p5@([^/]+)\.(min\.)?js$` the greedy `([^/]+)` always
    absorbs a `min.` infix, so group 2 never participates in a match.
* The parsed document (the linkedom DOM) is a tree `Node` of elements
  (tag, attribute list, children), comments and text nodes.  Parsing
  (`parseHTML`) is the DocumentAdapter primitive of the specification and
  is not modelled; the engine is given the parsed tree together with the
  original markup string (`updateP5Script orig doc version mode`).
  `document.head` is the first `head`-tagged element child of the
  document element, per the DOM specification.  `querySelectorAll` order
  is document (pre-order) order.
* Serialization follows `HTMLManager.serialize`: the fixed prefix
  `<!DOCTYPE html>\n` followed by the outer HTML of the document element.
  Text nodes are rendered verbatim (entity escaping is irrelevant to the
  claims, which only compare serializations of equal or visibly
  different trees).

The source strategy strings are kept verbatim: `updated-existing-script`,
`replaced-marker`, `inserted-new-script`, `no-head-found`; the
the names `updated-existing`, `replaced-marker`,
`inserted-new`, `no-anchor-available` correspond to them in this order.
-/

/-- Character strings, modelled as lists of characters. -/
abbrev Str := List Char

/-- The character list of a string literal. -/
def lit (s : String) : Str := s.data

/-- Drop the literal `p` from the front of `s`, or fail. -/
def dropLit : Str → Str → Option Str
  | [], s => some s
  | _ :: _, [] => none
  | p :: ps, c :: cs => if c = p then dropLit ps cs else none

/-- Does `s` begin with the literal `p`? -/
def beginsWith : Str → Str → Bool
  | [], _ => true
  | _ :: _, [] => false
  | p :: ps, c :: cs => decide (c = p) && beginsWith ps cs

/-- Does `s` contain the literal `p` as a contiguous substring?
This is the JavaScript `regex.test` for a literal pattern, used by
`HTMLManager.detectCDN`. -/
def hasSub (p : Str) : Str → Bool
  | [] => p.isEmpty
  | c :: cs => beginsWith p (c :: cs) || hasSub p cs

/-- Capture group `([^/]+)` followed by a literal `/`: take the (nonempty)
run of characters before the first `/` and return it with the remainder
after that `/`.  Since `[^/]+` cannot cross a `/`, regex backtracking
admits exactly this decomposition. -/
def capSlash (s : Str) : Option (Str × Str) :=
  match s.dropWhile (fun c => decide (c ≠ '/')) with
  | '/' :: r =>
    let v := s.takeWhile (fun c => decide (c ≠ '/'))
    if v = [] then none else some (v, r)
  | _ => none

/-- No `/` occurs in `s` (the character class `[^/]`). -/
def noSlash (s : Str) : Bool := s.all (fun c => decide (c ≠ '/'))

/-- Characters of a plain version token: digits and dots. -/
def verChar (c : Char) : Bool := c.isDigit || decide (c = '.')

/-- Whitespace for the purposes of `String.prototype.trim` (the common
ASCII whitespace characters; the exotic Unicode space characters play no
role in any claim). -/
def wsB (c : Char) : Bool :=
  decide (c = ' ') || decide (c = '\t') || decide (c = '\n') ||
  decide (c = '\r') || decide (c = '\x0b') || decide (c = '\x0c')

/-- `String.prototype.trim`: strip leading and trailing whitespace. -/
def trimCh (s : Str) : Str := ((s.dropWhile wsB).reverse.dropWhile wsB).reverse

/-- The scheme part `https?:\/\/` of the three CDN patterns. -/
def afterScheme (s : Str) : Option Str :=
  match dropLit (lit "http") s with
  | none => none
  | some r =>
    match dropLit (lit "s://") r with
    | some r2 => some r2
    | none => dropLit (lit "://") r

/-- The suffix `(min\.)?js$` after `p5.`: `min.js` captures the group,
`js` leaves it empty, anything else fails (the greedy optional group
backtracks to the empty alternative only when the tail is exactly `js`). -/
def tailMin (r : Str) : Option Bool :=
  if r = lit "min.js" then some true
  else if r = lit "js" then some false
  else none

/-- Pattern 1, `^https?:\/\/cdn\.jsdelivr\.net\/npm\/p5@([^/]+)\/lib\/p5\.(min\.)?js$`.
Returns (group 1, whether group 2 matched). -/
def matchJsdelivr (s : Str) : Option (Str × Bool) :=
  match afterScheme s with
  | none => none
  | some r1 =>
    match dropLit (lit "cdn.jsdelivr.net/npm/p5@") r1 with
    | none => none
    | some r2 =>
      match capSlash r2 with
      | none => none
      | some (v, r3) =>
        match dropLit (lit "lib/p5.") r3 with
        | none => none
        | some r4 =>
          match tailMin r4 with
          | none => none
          | some b => some (v, b)

/-- Pattern 2, `^https?:\/\/cdnjs\.cloudflare\.com\/ajax\/libs\/p5\.js\/([^/]+)\/p5\.(?:min\.)?js$`.
The minification marker is non-capturing, so only group 1 is returned. -/
def matchCdnjs (s : Str) : Option Str :=
  match afterScheme s with
  | none => none
  | some r1 =>
    match dropLit (lit "cdnjs.cloudflare.com/ajax/libs/p5.js/") r1 with
    | none => none
    | some r2 =>
      match capSlash r2 with
      | none => none
      | some (v, r3) =>
        if r3 = lit "p5.min.js" then some v
        else if r3 = lit "p5.js" then some v
        else none

/-- Pattern 3, `^https?:\/\/unpkg\.com\/p5@([^/]+)\/lib\/p5\.(min\.)?js$`. -/
def matchUnpkg (s : Str) : Option (Str × Bool) :=
  match afterScheme s with
  | none => none
  | some r1 =>
    match dropLit (lit "unpkg.com/p5@") r1 with
    | none => none
    | some r2 =>
      match capSlash r2 with
      | none => none
      | some (v, r3) =>
        match dropLit (lit "lib/p5.") r3 with
        | none => none
        | some r4 =>
          match tailMin r4 with
          | none => none
          | some b => some (v, b)

/-- Pattern 4, `^lib\/p5\.(min\.)?js$`.  Its only group is the
minification marker, which `exec` reports as `match[1]`; there is no
second group.  The result is `match[1]`. -/
def matchLocalA (s : Str) : Option (Option Str) :=
  if s = lit "lib/p5.js" then some none
  else if s = lit "lib/p5.min.js" then some (some (lit "min."))
  else none

/-- Pattern 5, `^lib\/p5@([^/]+)\.(min\.)?js$`.  The greedy `([^/]+)`
takes the longest slash-free run for which the rest of the pattern still
matches; for any input of the form `lib/p5@A.min.js` the decomposition
with group 1 = `A.min` and group 2 empty beats the one with
group 1 = `A` and group 2 = `min.`, so group 2 never participates in a
successful match.  Hence the pattern matches exactly the strings
`lib/p5@` ++ A ++ `.js` with A nonempty and slash-free, with
`match[1] = A` and `match[2] = undefined`. -/
def matchLocalB (s : Str) : Option Str :=
  match dropLit (lit "lib/p5@") s with
  | none => none
  | some r =>
    match r.reverse with
    | 's' :: 'j' :: '.' :: restRev =>
      let a := restRev.reverse
      if a = [] then none
      else if noSlash a then some a else none
    | _ => none

/-- Try the five patterns of `HTMLManager.P5_PATTERNS` in their fixed
order; return `(match[1], whether match[2] matched)` of the first hit. -/
def classify (s : Str) : Option (Option Str × Bool) :=
  match matchJsdelivr s with
  | some (v, b) => some (some v, b)
  | none =>
    match matchCdnjs s with
    | some v => some (some v, false)
    | none =>
      match matchUnpkg s with
      | some (v, b) => some (some v, b)
      | none =>
        match matchLocalA s with
        | some g1 => some (g1, false)
        | none =>
          match matchLocalB s with
          | some v => some (some v, false)
          | none => none

/-- The JavaScript fallback expression on `match[1]`: an absent (or empty)
capture falls back to the sentinel `local`. -/
def orLocal (o : Option Str) : Str :=
  match o with
  | none => lit "local"
  | some v => if v = [] then lit "local" else v

/-- Embedding of `HTMLManager.detectCDN`: substring tests in fixed order
with the `jsdelivr` default. -/
def detectCDN (u : Str) : Str :=
  if hasSub (lit "cdn.jsdelivr.net") u then lit "jsdelivr"
  else if hasSub (lit "cdnjs.cloudflare.com") u then lit "cdnjs"
  else if hasSub (lit "unpkg.com") u then lit "unpkg"
  else lit "jsdelivr"

/-- Result of classifying a reference string (the non-node part of the
record returned by `HTMLManager.findP5Script`). -/
structure P5Info where
  version : Str
  isMinified : Bool
  cdnProvider : Str
deriving DecidableEq

/-- Classification of one `src` attribute value, exactly as in the loop
body of `findP5Script`. -/
def mkInfo (src : Str) : Option P5Info :=
  match classify src with
  | none => none
  | some (g1, g2) => some ⟨orLocal g1, g2, detectCDN src⟩

/-- User preferences handed to `buildScriptURL` (`isMinified`,
`cdnProvider`); an `undefined` field is `none`, and the JavaScript
default `preferences = {}` is `⟨false, none⟩`. -/
structure Prefs where
  isMinified : Bool
  cdnProvider : Option Str
deriving DecidableEq

/-- Embedding of `HTMLManager.buildScriptURL` (the module constant
`basePath` is the string sketch followed by a slash). -/
def buildScriptURL (version mode : Str) (p : Prefs) : Str :=
  let file := if p.isMinified then lit "p5.min.js" else lit "p5.js"
  if mode = lit "local" then lit "sketch/lib/" ++ file
  else
    let cdn := p.cdnProvider.getD (lit "jsdelivr")
    if cdn = lit "jsdelivr" then
      lit "https://cdn.jsdelivr.net/npm/p5@" ++ version ++ lit "/lib/" ++ file
    else if cdn = lit "cdnjs" then
      lit "https://cdnjs.cloudflare.com/ajax/libs/p5.js/" ++ version ++ lit "/" ++ file
    else if cdn = lit "unpkg" then
      lit "https://unpkg.com/p5@" ++ version ++ lit "/lib/" ++ file
    else
      lit "https://cdn.jsdelivr.net/npm/p5@" ++ version ++ lit "/lib/" ++ file

/-- A node of the parsed document: an element (tag, attributes,
children), a comment, or a text node. -/
inductive Node : Type where
  | elem : Str → List (Str × Str) → List Node → Node
  | comment : Str → Node
  | txt : Str → Node

/-- Fixed name and strategy tokens of the source. -/
def scriptTag : Str := lit "script"

def headTag : Str := lit "head"

def srcKey : Str := lit "src"

def cdnTok : Str := lit "cdn"

def localTok : Str := lit "local"

def methUpd : Str := lit "updated-existing-script"

def methMarker : Str := lit "replaced-marker"

def methIns : Str := lit "inserted-new-script"

def methNoHead : Str := lit "no-head-found"

/-- Trimmed-equality test against the sentinel `P5JS_SCRIPT_TAG`
(case-sensitive, as in `findMarker`). -/
def isSentTxt (c : Str) : Bool := decide (trimCh c = lit "P5JS_SCRIPT_TAG")

/-- Reading the src attribute with the empty-string fallback, as in
`findP5Script`: the value of the first `src` attribute, or empty. -/
def getSrc (attrs : List (Str × Str)) : Str :=
  match attrs.find? (fun kv => decide (kv.fst = srcKey)) with
  | some kv => kv.snd
  | none => []

/-- Embedding of setAttribute on src: overwrite the existing `src` attribute in
place, or append one (attribute names are unique in a parsed document;
overwriting every `src` entry is the list-level rendering of that). -/
def setSrc (attrs : List (Str × Str)) (url : Str) : List (Str × Str) :=
  if attrs.any (fun kv => decide (kv.fst = srcKey)) then
    attrs.map (fun kv => if kv.fst = srcKey then (srcKey, url) else kv)
  else attrs ++ [(srcKey, url)]

/-- A fresh script element carrying only the given url, as built by
createElement followed by setAttribute. -/
def mkScript (url : Str) : Node := .elem scriptTag (setSrc [] url) []

mutual
/-- One pass of `findP5Script` fused with the subsequent src rewrite:
locate the first script element in document (pre-order) order whose
`src` matches a pattern, return its classification together with the
tree in which the `src` of that script has been set to `url`. -/
def visitN (url : Str) : Node → Option (P5Info × Node)
  | .elem t attrs kids =>
    if t = scriptTag then
      match mkInfo (getSrc attrs) with
      | some info => some (info, .elem t (setSrc attrs url) kids)
      | none =>
        match visitL url kids with
        | some (i, kids2) => some (i, .elem t attrs kids2)
        | none => none
    else
      match visitL url kids with
      | some (i, kids2) => some (i, .elem t attrs kids2)
      | none => none
  | .comment _ => none
  | .txt _ => none

/-- List version of `visitN`. -/
def visitL (url : Str) : List Node → Option (P5Info × List Node)
  | [] => none
  | k :: ks =>
    match visitN url k with
    | some (i, k2) => some (i, k2 :: ks)
    | none =>
      match visitL url ks with
      | some (i, ks2) => some (i, k :: ks2)
      | none => none
end

/-- The classification part of `findP5Script` (the rewriting url is
irrelevant to it). -/
def findP5InfoN (n : Node) : Option P5Info :=
  match visitN [] n with
  | some (i, _) => some i
  | none => none

mutual
/-- All comment texts of a subtree, in pre-order. -/
def commentsN : Node → List Str
  | .comment c => [c]
  | .txt _ => []
  | .elem _ _ kids => commentsL kids

/-- List version of `commentsN`. -/
def commentsL : List Node → List Str
  | [] => []
  | k :: ks => commentsN k ++ commentsL ks
end

mutual
/-- The `src` attributes of all script elements of a subtree, in
pre-order (the candidate list `findP5Script` iterates over). -/
def srcsN : Node → List Str
  | .elem t a kids => if t = scriptTag then getSrc a :: srcsL kids else srcsL kids
  | .comment _ => []
  | .txt _ => []

/-- List version of `srcsN`. -/
def srcsL : List Node → List Str
  | [] => []
  | k :: ks => srcsN k ++ srcsL ks
end

mutual
/-- Erase all attributes of a subtree (the skeleton that a pure `src`
rewrite leaves untouched). -/
def stripN : Node → Node
  | .elem t _ kids => .elem t [] (stripL kids)
  | .comment c => .comment c
  | .txt s => .txt s

/-- List version of `stripN`. -/
def stripL : List Node → List Node
  | [] => []
  | k :: ks => stripN k :: stripL ks
end

mutual
/-- Depth-first search of `findMarker` fused with the replaceChild call
on the parent of the marker: replace the first comment
node (pre-order) whose trimmed text is the sentinel by `r`. -/
def replMarkN (r : Node) : Node → Option Node
  | .comment c => if isSentTxt c then some r else none
  | .txt _ => none
  | .elem t a kids =>
    match replMarkL r kids with
    | some kids2 => some (.elem t a kids2)
    | none => none

/-- List version of `replMarkN`. -/
def replMarkL (r : Node) : List Node → Option (List Node)
  | [] => none
  | k :: ks =>
    match replMarkN r k with
    | some k2 => some (k2 :: ks)
    | none =>
      match replMarkL r ks with
      | some ks2 => some (k :: ks2)
      | none => none
end

/-- Is this node a `head` element? -/
def isHeadEl : Node → Bool
  | .elem t _ _ => decide (t = headTag)
  | _ => false

/-- Split a child list around its first `head` element. -/
def splitHeadKids : List Node → Option (List Node × Node × List Node)
  | [] => none
  | k :: ks =>
    if isHeadEl k then some ([], k, ks)
    else
      match splitHeadKids ks with
      | some (b, h, a) => some (k :: b, h, a)
      | none => none

/-- Embedding of the head getter: the first `head` element child of the
document element, returned in context. -/
def headSplit : Node → Option (List Node × Node × List Node)
  | .elem _ _ kids => splitHeadKids kids
  | _ => none

/-- Replace the children of an element. -/
def withKids : Node → List Node → Node
  | .elem t a _, ks => .elem t a ks
  | n, _ => n

/-- Insert a node as first child (`insertBefore(c, firstChild)`, or
`appendChild(c)` when there are no children: both give the same list). -/
def prependKid (c : Node) : Node → Node
  | .elem t a ks => .elem t a (c :: ks)
  | n => n

/-- Does some comment inside the metadata container (head) have trimmed
text exactly equal to the sentinel token? -/
def hasMarker (n : Node) : Bool :=
  match headSplit n with
  | some (_, h, _) => (commentsN h).any isSentTxt
  | none => false

/-- The placement decision of `HTMLManager.updateP5Script`, acting on
the parsed document element.  Returns the document element after
mutation, the `updated` flag and the `method` string. -/
def reconcileRoot (root : Node) (version mode : Str) : Node × Bool × Str :=
  match findP5InfoN root with
  | some info =>
    let url := buildScriptURL version mode
      ⟨info.isMinified, if mode = cdnTok then some info.cdnProvider else none⟩
    (match visitN url root with
     | some (_, r2) => r2
     | none => root, true, methUpd)
  | none =>
    match headSplit root with
    | none => (root, false, methNoHead)
    | some (b, h, a) =>
      let url := buildScriptURL version mode ⟨false, none⟩
      match replMarkN (mkScript url) h with
      | some h2 => (withKids root (b ++ h2 :: a), true, methMarker)
      | none => (withKids root (b ++ prependKid (mkScript url) h :: a), true, methIns)

/-- Render an attribute list as ` key="value"` pairs. -/
def renderAttrs (attrs : List (Str × Str)) : Str :=
  attrs.foldr (fun kv acc => ' ' :: (kv.fst ++ '=' :: '"' :: (kv.snd ++ '"' :: acc))) []

mutual
/-- Serialization (outerHTML) of a node. -/
def serializeN : Node → Str
  | .txt s => s
  | .comment c => lit "<!--" ++ c ++ lit "-->"
  | .elem t a kids =>
    '<' :: (t ++ renderAttrs a ++ ('>' :: serializeL kids)) ++ ('<' :: '/' :: (t ++ ['>']))

/-- List version of `serializeN`. -/
def serializeL : List Node → Str
  | [] => []
  | k :: ks => serializeN k ++ serializeL ks
end

/-- Embedding of `HTMLManager.serialize`: the fixed doctype prefix followed by the
outer HTML of the document element. -/
def serializeDoc (root : Node) : Str := lit "<!DOCTYPE html>\n" ++ serializeN root

/-- A parsed document: the nodes preceding the document element (doctype,
comments — produced by the DocumentAdapter, never consulted by the
engine) and the document element itself. -/
structure Document where
  preRoot : List Node
  root : Node

/-- The structured result of `updateP5Script`. -/
structure Outcome where
  html : Str
  updated : Bool
  method : Str
deriving DecidableEq

/-- Embedding of `HTMLManager.updateP5Script htmlString version mode`, with the
parse `parseHTML htmlString ⇝ d` supplied as the DocumentAdapter
primitive: on the three mutating branches the result markup is the
serialization of the mutated document, on the no-head branch it is the
original string. -/
def updateP5Script (orig : Str) (d : Document) (version mode : Str) : Outcome :=
  match reconcileRoot d.root version mode with
  | (r2, u, meth) => ⟨if u then serializeDoc r2 else orig, u, meth⟩

/-- Rewrite the first classifying entry of a `src` list with `url`,
leaving every other entry unchanged (the list-level shadow of one
`findP5Script` + `setAttribute` round). -/
def replFC : List Str → Str → List Str
  | [], _ => []
  | s :: ss, url => if (mkInfo s).isSome then url :: ss else s :: replFC ss url

/-- The URL synthesized in the updated-existing branch: preferences are
the classified minification flag, and the classified provider only when
the delivery mode is `cdn`. -/
def urlFor (i : P5Info) (v m : Str) : Str :=
  buildScriptURL v m ⟨i.isMinified, if m = cdnTok then some i.cdnProvider else none⟩

/-- Document with two classifying references (jsdelivr first, unpkg
second), used to witness C5. -/
def w5root : Node :=
  .elem (lit "html") [] [.elem headTag []
    [.elem scriptTag [(srcKey, lit "https://cdn.jsdelivr.net/npm/p5@2.1.0/lib/p5.js")] [],
     .elem scriptTag [(srcKey, lit "https://unpkg.com/p5@1.0.0/lib/p5.min.js")] []]]

/-- Document with a minified unpkg reference, used to witness C9. -/
def w9root : Node :=
  .elem (lit "html") [] [.elem headTag []
    [.elem scriptTag [(srcKey, lit "https://unpkg.com/p5@2.1.0/lib/p5.min.js")] []]]

/-- Document with a marker (nested inside a div in the head) and no
reference, used to witness C8. -/
def w8root : Node :=
  .elem (lit "html") [] [.elem headTag []
    [.elem (lit "meta") [] [],
     .elem (lit "div") [] [.comment (lit "  P5JS_SCRIPT_TAG\t")]]]

/-- Canonical form of a synthesized jsdelivr URL. -/
def jsdShape (V f : Str) : Str :=
  lit "https://cdn.jsdelivr.net/npm/p5@" ++ (V ++ ('/' :: (lit "lib/p5." ++ f)))

/-- Canonical form of a synthesized cdnjs URL (plain artifact). -/
def cdnjsShape (V : Str) : Str :=
  lit "https://cdnjs.cloudflare.com/ajax/libs/p5.js/" ++ (V ++ ('/' :: lit "p5.js"))

/-- Canonical form of a synthesized unpkg URL. -/
def unpkgShape (V f : Str) : Str :=
  lit "https://unpkg.com/p5@" ++ (V ++ ('/' :: (lit "lib/p5." ++ f)))

/-- Document with a jsdelivr reference, used for the C1 counterexample
and witness. -/
def c1root : Node :=
  .elem (lit "html") [] [.elem headTag []
    [.elem scriptTag [(srcKey, lit "https://cdn.jsdelivr.net/npm/p5@2.1.0/lib/p5.js")] []]]

/-- Document with a plain cdnjs reference, used to witness the amended
C1. -/
def c1wroot : Node :=
  .elem (lit "html") [] [.elem headTag []
    [.elem scriptTag
      [(srcKey, lit "https://cdnjs.cloudflare.com/ajax/libs/p5.js/2.1.0/p5.js")] []]]

/-! Helper lemmas: marker search and head splitting -/

mutual
/-- The marker replacement succeeds exactly when some comment of the
subtree has the sentinel as trimmed text. -/
theorem replMark_isSomeN (r : Node) : (n : Node) →
    (replMarkN r n).isSome = (commentsN n).any isSentTxt
  | .comment c => by
    simp only [replMarkN, commentsN, List.any_cons, List.any_nil, Bool.or_false]
    split <;> simp_all
  | .txt _ => by simp [replMarkN, commentsN]
  | .elem t a kids => by
    have ih := replMark_isSomeL r kids
    simp only [replMarkN, commentsN]
    cases h : replMarkL r kids <;> simp_all

/-- List version of `replMark_isSomeN`. -/
theorem replMark_isSomeL (r : Node) : (ks : List Node) →
    (replMarkL r ks).isSome = (commentsL ks).any isSentTxt
  | [] => by simp [replMarkL, commentsL]
  | k :: ks => by
    have ih1 := replMark_isSomeN r k
    have ih2 := replMark_isSomeL r ks
    simp only [replMarkL, commentsL, List.any_append]
    cases h1 : replMarkN r k
    · cases h2 : replMarkL r ks <;> simp_all
    · simp_all
end

/-- The node returned by `splitHeadKids` is a `head` element. -/
theorem splitHeadKids_isHead : ∀ (ks b : List Node) (h : Node) (a : List Node),
    splitHeadKids ks = some (b, h, a) → isHeadEl h = true
  | [], _, _, _ => by simp [splitHeadKids]
  | k :: ks, b, h, a => by
    by_cases hk : isHeadEl k
    · simp only [splitHeadKids, hk, if_true]
      intro he
      obtain ⟨-, rfl, -⟩ : ([] = b) ∧ k = h ∧ ks = a := by
        simpa using he
      exact hk
    · simp only [splitHeadKids, hk, if_false]
      cases hrec : splitHeadKids ks with
      | none => simp
      | some x =>
        obtain ⟨b2, h2, a2⟩ := x
        intro he
        obtain ⟨-, rfl, -⟩ : (k :: b2 = b) ∧ h2 = h ∧ a2 = a := by
          simpa using he
        exact splitHeadKids_isHead ks b2 h2 a2 hrec

/-- The node returned by `headSplit` is a `head` element. -/
theorem headSplit_isHead (n : Node) (b : List Node) (h : Node) (a : List Node)
    (hs : headSplit n = some (b, h, a)) : isHeadEl h = true := by
  cases n with
  | elem t at2 kids => exact splitHeadKids_isHead kids b h a hs
  | comment c => simp [headSplit] at hs
  | txt s => simp [headSplit] at hs

/-- A `head` element exposes its attributes and children. -/
theorem isHeadEl_elem (h : Node) (hh : isHeadEl h = true) :
    ∃ ha hk, h = .elem headTag ha hk := by
  cases h with
  | elem t a kids =>
    refine ⟨a, kids, ?_⟩
    simp only [isHeadEl, decide_eq_true_eq] at hh
    rw [hh]
  | comment c => simp [isHeadEl] at hh
  | txt s => simp [isHeadEl] at hh

/-! Branch lemmas for `reconcileRoot` -/

/-- The no-anchor branch: no classifiable reference and no head. -/
theorem reconcileRoot_noHead (root : Node) (v m : Str)
    (hinfo : findP5InfoN root = none) (hhead : headSplit root = none) :
    reconcileRoot root v m = (root, false, methNoHead) := by
  unfold reconcileRoot
  rw [hinfo, hhead]

/-- The updated-existing branch fires whenever a reference classifies. -/
theorem reconcileRoot_upd (root : Node) (v m : Str) (i : P5Info)
    (hinfo : findP5InfoN root = some i) :
    reconcileRoot root v m =
      (match visitN (buildScriptURL v m
          ⟨i.isMinified, if m = cdnTok then some i.cdnProvider else none⟩) root with
       | some (_, r2) => r2
       | none => root, true, methUpd) := by
  unfold reconcileRoot
  rw [hinfo]

/-- The marker branch fires when nothing classifies and the head holds a
sentinel comment. -/
theorem reconcileRoot_marker (root : Node) (v m : Str)
    (b : List Node) (h h2 : Node) (a : List Node)
    (hinfo : findP5InfoN root = none) (hhead : headSplit root = some (b, h, a))
    (hrm : replMarkN (mkScript (buildScriptURL v m ⟨false, none⟩)) h = some h2) :
    reconcileRoot root v m = (withKids root (b ++ h2 :: a), true, methMarker) := by
  unfold reconcileRoot
  rw [hinfo, hhead]
  simp only [hrm]

/-- The insertion branch fires when nothing classifies and the head holds
no sentinel comment. -/
theorem reconcileRoot_insert (root : Node) (v m : Str)
    (b : List Node) (h : Node) (a : List Node)
    (hinfo : findP5InfoN root = none) (hhead : headSplit root = some (b, h, a))
    (hrm : replMarkN (mkScript (buildScriptURL v m ⟨false, none⟩)) h = none) :
    reconcileRoot root v m =
      (withKids root (b ++ prependKid (mkScript (buildScriptURL v m ⟨false, none⟩)) h :: a),
       true, methIns) := by
  unfold reconcileRoot
  rw [hinfo, hhead]
  simp only [hrm]

/-- With a head in context, absence of a sentinel comment in it makes the
marker replacement fail. -/
theorem replMark_none_of_not_hasMarker (root : Node) (r : Node)
    (b : List Node) (h : Node) (a : List Node)
    (hhead : headSplit root = some (b, h, a)) (hm : hasMarker root = false) :
    replMarkN r h = none := by
  have hany : (commentsN h).any isSentTxt = false := by
    unfold hasMarker at hm
    rw [hhead] at hm
    exact hm
  have := replMark_isSomeN r h
  rw [hany] at this
  cases hcase : replMarkN r h with
  | none => rfl
  | some x => rw [hcase] at this; simp at this

/-! Claim theorems -/

/-- Claim C6: for a document with no classifiable reference, no marker
and no metadata container (head), reconcile returns the input markup
unchanged, `changed = false`, strategy `no-head-found` (the source name
for `no-anchor-available`), and the tree is not mutated. -/
theorem claim6_no_anchor_noop (s : Str) (pre : List Node) (root : Node) (v m : Str)
    (hinfo : findP5InfoN root = none) (hmark : hasMarker root = false)
    (hhead : headSplit root = none) :
    updateP5Script s ⟨pre, root⟩ v m = ⟨s, false, methNoHead⟩ ∧
      (reconcileRoot root v m).1 = root := by
  have hr := reconcileRoot_noHead root v m hinfo hhead
  constructor
  · unfold updateP5Script
    simp only [hr, if_neg (by simp : ¬ (false = true))]
  · rw [hr]

/-- Witness for C6 at a concrete headless document. -/
theorem claim6_witness :
    (findP5InfoN (.elem (lit "html") [] [.elem (lit "body") [] []]) = none ∧
     hasMarker (.elem (lit "html") [] [.elem (lit "body") [] []]) = false ∧
     headSplit (.elem (lit "html") [] [.elem (lit "body") [] []]) = none) ∧
    (updateP5Script (lit "<original>") ⟨[], .elem (lit "html") [] [.elem (lit "body") [] []]⟩
       (lit "2.0.5") cdnTok = ⟨lit "<original>", false, methNoHead⟩ ∧
     (reconcileRoot (.elem (lit "html") [] [.elem (lit "body") [] []]) (lit "2.0.5") cdnTok).1 =
       .elem (lit "html") [] [.elem (lit "body") [] []]) :=
  ⟨⟨rfl, rfl, rfl⟩,
   claim6_no_anchor_noop (lit "<original>") [] (.elem (lit "html") [] [.elem (lit "body") [] []])
     (lit "2.0.5") cdnTok rfl rfl rfl⟩

/-- Claim C7: with a metadata container but no classifiable reference and
no marker, the synthesized script element is inserted as the first child
of the head, preceding everything that was previously first, and the
strategy is `inserted-new-script` (the source name for `inserted-new`). -/
theorem claim7_insert_first_child (root : Node) (v m : Str)
    (b : List Node) (h : Node) (a : List Node)
    (hinfo : findP5InfoN root = none) (hhead : headSplit root = some (b, h, a))
    (hmark : hasMarker root = false) :
    reconcileRoot root v m =
      (withKids root (b ++ prependKid (mkScript (buildScriptURL v m ⟨false, none⟩)) h :: a),
       true, methIns) ∧
    ∃ ha hk, h = .elem headTag ha hk ∧
      prependKid (mkScript (buildScriptURL v m ⟨false, none⟩)) h =
        .elem headTag ha (mkScript (buildScriptURL v m ⟨false, none⟩) :: hk) := by
  have hrm := replMark_none_of_not_hasMarker root
    (mkScript (buildScriptURL v m ⟨false, none⟩)) b h a hhead hmark
  refine ⟨reconcileRoot_insert root v m b h a hinfo hhead hrm, ?_⟩
  obtain ⟨ha, hk, rfl⟩ := isHeadEl_elem h (headSplit_isHead root b h a hhead)
  exact ⟨ha, hk, rfl, rfl⟩

/-- Witness for C7: a head whose first child was a meta element. -/
theorem claim7_witness :
    (findP5InfoN (.elem (lit "html") []
        [.elem headTag [] [.elem (lit "meta") [] []]]) = none ∧
     headSplit (.elem (lit "html") [] [.elem headTag [] [.elem (lit "meta") [] []]]) =
       some ([], .elem headTag [] [.elem (lit "meta") [] []], []) ∧
     hasMarker (.elem (lit "html") [] [.elem headTag [] [.elem (lit "meta") [] []]]) = false) ∧
    reconcileRoot (.elem (lit "html") [] [.elem headTag [] [.elem (lit "meta") [] []]])
        (lit "2.0.5") cdnTok =
      (.elem (lit "html") []
        [.elem headTag []
          [mkScript (buildScriptURL (lit "2.0.5") cdnTok ⟨false, none⟩),
           .elem (lit "meta") [] []]], true, methIns) := by
  refine ⟨⟨rfl, rfl, rfl⟩, ?_⟩
  have := (claim7_insert_first_child
    (.elem (lit "html") [] [.elem headTag [] [.elem (lit "meta") [] []]])
    (lit "2.0.5") cdnTok [] (.elem headTag [] [.elem (lit "meta") [] []]) []
    rfl rfl rfl).1
  exact this

/-- Claim C10: whenever reconcile reports a change, the output markup is
exactly the fixed prefix `<!DOCTYPE html>\n` followed by the
serialization of the (mutated) document element; the original markup
string and whatever nodes preceded the document element in the parse are
not consulted at all. -/
theorem claim10_serialize_prefix (s s2 : Str) (pre pre2 : List Node) (root : Node)
    (v m : Str) (h : (updateP5Script s ⟨pre, root⟩ v m).updated = true) :
    (updateP5Script s ⟨pre, root⟩ v m).html =
      lit "<!DOCTYPE html>\n" ++ serializeN (reconcileRoot root v m).1 ∧
    updateP5Script s2 ⟨pre2, root⟩ v m = updateP5Script s ⟨pre, root⟩ v m := by
  unfold updateP5Script at *
  rcases hr : reconcileRoot root v m with ⟨r2, u, meth⟩
  rw [hr] at h
  simp only at h
  cases u with
  | false => simp at h
  | true => exact ⟨rfl, rfl⟩

/-- Witness for C10 at a concrete document holding a jsdelivr script. -/
theorem claim10_witness :
    ((updateP5Script (lit "IGNORED")
        ⟨[.comment (lit "old doctype")],
         .elem (lit "html") [] [.elem headTag []
           [.elem scriptTag [(srcKey, lit "https://cdn.jsdelivr.net/npm/p5@2.1.0/lib/p5.js")] []]]⟩
        (lit "2.0.5") cdnTok).updated = true) ∧
    ((updateP5Script (lit "IGNORED")
        ⟨[.comment (lit "old doctype")],
         .elem (lit "html") [] [.elem headTag []
           [.elem scriptTag [(srcKey, lit "https://cdn.jsdelivr.net/npm/p5@2.1.0/lib/p5.js")] []]]⟩
        (lit "2.0.5") cdnTok).html =
      lit "<!DOCTYPE html>\n" ++ serializeN
        (reconcileRoot
          (.elem (lit "html") [] [.elem headTag []
            [.elem scriptTag [(srcKey, lit "https://cdn.jsdelivr.net/npm/p5@2.1.0/lib/p5.js")] []]])
          (lit "2.0.5") cdnTok).1 ∧
     updateP5Script (lit "OTHER")
        ⟨[],
         .elem (lit "html") [] [.elem headTag []
           [.elem scriptTag [(srcKey, lit "https://cdn.jsdelivr.net/npm/p5@2.1.0/lib/p5.js")] []]]⟩
        (lit "2.0.5") cdnTok =
      updateP5Script (lit "IGNORED")
        ⟨[.comment (lit "old doctype")],
         .elem (lit "html") [] [.elem headTag []
           [.elem scriptTag [(srcKey, lit "https://cdn.jsdelivr.net/npm/p5@2.1.0/lib/p5.js")] []]]⟩
        (lit "2.0.5") cdnTok) :=
  ⟨by decide,
   claim10_serialize_prefix (lit "IGNORED") (lit "OTHER")
     [.comment (lit "old doctype")] []
     (.elem (lit "html") [] [.elem headTag []
       [.elem scriptTag [(srcKey, lit "https://cdn.jsdelivr.net/npm/p5@2.1.0/lib/p5.js")] []]])
     (lit "2.0.5") cdnTok (by decide)⟩

/-- Claim C2 (divergence witness): a reference on cdnjs naming the
minified artifact classifies with `isMinified = false` — the cdnjs
pattern has a non-capturing minification marker, contradicting the
documented capture-group contract of the catalog — and reconciling in cdn mode
therefore rewrites it to the NON-minified cdnjs artifact. -/
theorem claim2_cdnjs_minified_dropped :
    mkInfo (lit "https://cdnjs.cloudflare.com/ajax/libs/p5.js/2.1.0/p5.min.js") =
      some ⟨lit "2.1.0", false, lit "cdnjs"⟩ ∧
    srcsN (reconcileRoot
      (.elem (lit "html") [] [.elem headTag []
        [.elem scriptTag
          [(srcKey, lit "https://cdnjs.cloudflare.com/ajax/libs/p5.js/2.1.0/p5.min.js")] []]])
      (lit "2.0.5") cdnTok).1 =
      [lit "https://cdnjs.cloudflare.com/ajax/libs/p5.js/2.0.5/p5.js"] := by
  decide

/-- Claim C3 (divergence witness): the plain versionless local path
classifies with the `local` sentinel as required, but the minified
variant `lib/p5.min.js` classifies with version `"min."` and
`isMinified = false` — the only group of the versionless local pattern
is the minification marker, reported as `match[1]`, contradicting the
documented capture-group contract of the catalog. -/
theorem claim3_local_classification_bug :
    mkInfo (lit "lib/p5.js") = some ⟨lit "local", false, lit "jsdelivr"⟩ ∧
    mkInfo (lit "lib/p5.min.js") = some ⟨lit "min.", false, lit "jsdelivr"⟩ ∧
    lit "min." ≠ lit "local" := by
  decide

/-! Attribute lemmas -/

/-- The empty reference string matches no pattern. -/
theorem mkInfo_nil : mkInfo [] = none := by decide

/-- A classifying element necessarily carries a `src` attribute. -/
theorem any_src_of_getSrc_ne (attrs : List (Str × Str)) (h : getSrc attrs ≠ []) :
    attrs.any (fun kv => decide (kv.fst = srcKey)) = true := by
  by_contra hany
  have hall : ∀ kv ∈ attrs, ¬ (decide (kv.fst = srcKey) = true) := by
    intro kv hkv
    intro hp
    exact hany (List.any_eq_true.mpr ⟨kv, hkv, hp⟩)
  have : attrs.find? (fun kv => decide (kv.fst = srcKey)) = none :=
    List.find?_eq_none.mpr hall
  exact h (by simp [getSrc, this])

/-- Rewriting the `src` attribute then reading it yields the new value. -/
theorem getSrc_setSrc (attrs : List (Str × Str)) (url : Str)
    (h : attrs.any (fun kv => decide (kv.fst = srcKey)) = true) :
    getSrc (setSrc attrs url) = url := by
  unfold setSrc
  rw [if_pos h]
  revert h
  induction attrs with
  | nil => intro h; simp at h
  | cons kv rest ih =>
    intro h
    by_cases hk : kv.fst = srcKey
    · simp [getSrc, hk]
    · have h2 : rest.any (fun kv => decide (kv.fst = srcKey)) = true := by
        simpa [hk] using h
      simpa [getSrc, hk] using ih h2

/-- A rewritten attribute list still has a `src` entry. -/
theorem any_src_setSrc (attrs : List (Str × Str)) (url : Str) :
    (setSrc attrs url).any (fun kv => decide (kv.fst = srcKey)) = true := by
  unfold setSrc
  split
  · next h =>
    obtain ⟨kv, hkv, hp⟩ := List.any_eq_true.mp h
    refine List.any_eq_true.mpr ⟨(srcKey, url), ?_, by simp⟩
    refine List.mem_map.mpr ⟨kv, hkv, ?_⟩
    simp only [decide_eq_true_eq] at hp
    rw [if_pos hp]
  · exact List.any_eq_true.mpr ⟨(srcKey, url), by simp, by simp⟩

/-- Rewriting `src` twice keeps only the last value. -/
theorem setSrc_setSrc (attrs : List (Str × Str)) (u u2 : Str) :
    setSrc (setSrc attrs u) u2 = setSrc attrs u2 := by
  unfold setSrc
  by_cases h : attrs.any (fun kv => decide (kv.fst = srcKey)) = true
  · rw [if_pos h, if_pos h]
    rw [if_pos]
    · rw [List.map_map]
      apply List.map_congr_left
      intro kv _
      by_cases hk : kv.fst = srcKey <;> simp [hk]
    · obtain ⟨kv, hkv, hp⟩ := List.any_eq_true.mp h
      refine List.any_eq_true.mpr ⟨(srcKey, u), ?_, by simp⟩
      refine List.mem_map.mpr ⟨kv, hkv, ?_⟩
      simp only [decide_eq_true_eq] at hp
      rw [if_pos hp]
  · rw [if_neg h, if_neg h]
    rw [if_pos]
    · rw [List.map_append]
      have h1 : (attrs.map fun kv => if kv.fst = srcKey then (srcKey, u2) else kv) = attrs := by
        conv_rhs => rw [← List.map_id attrs]
        apply List.map_congr_left
        intro kv hkv
        rw [if_neg]
        · rfl
        · intro hk
          exact h (List.any_eq_true.mpr ⟨kv, hkv, by simp [hk]⟩)
      rw [h1]
      simp
    · exact List.any_eq_true.mpr ⟨(srcKey, u), by simp, by simp⟩

/-! Visit lemmas -/

mutual
/-- The classification returned by a visit does not depend on the
rewriting url. -/
theorem visit_fstN : ∀ (u u2 : Str) (n : Node),
    (visitN u n).map Prod.fst = (visitN u2 n).map Prod.fst
  | _, _, .comment _ => by simp [visitN]
  | _, _, .txt _ => by simp [visitN]
  | u, u2, .elem t attrs kids => by
    have ih := visit_fstL u u2 kids
    by_cases ht : t = scriptTag
    · simp only [visitN, if_pos ht]
      cases hm : mkInfo (getSrc attrs)
      · cases h1 : visitL u kids <;> cases h2 : visitL u2 kids <;> simp_all
      · simp
    · simp only [visitN, if_neg ht]
      cases h1 : visitL u kids <;> cases h2 : visitL u2 kids <;> simp_all

/-- List version of `visit_fstN`. -/
theorem visit_fstL : ∀ (u u2 : Str) (ks : List Node),
    (visitL u ks).map Prod.fst = (visitL u2 ks).map Prod.fst
  | _, _, [] => by simp [visitL]
  | u, u2, k :: ks => by
    have ih1 := visit_fstN u u2 k
    have ih2 := visit_fstL u u2 ks
    simp only [visitL]
    cases h1 : visitN u k <;> cases h2 : visitN u2 k
    · cases h3 : visitL u ks <;> cases h4 : visitL u2 ks <;> simp_all
    · simp_all
    · simp_all
    · simp_all
end

mutual
/-- When the visit fails, no script `src` in the subtree classifies. -/
theorem visitNone_srcsN : ∀ (u : Str) (n : Node), visitN u n = none →
    ∀ s ∈ srcsN n, mkInfo s = none
  | _, .comment _, _ => by simp [srcsN]
  | _, .txt _, _ => by simp [srcsN]
  | u, .elem t attrs kids, h => by
    by_cases ht : t = scriptTag
    · simp only [visitN, if_pos ht] at h
      cases hm : mkInfo (getSrc attrs) with
      | some i =>
        rw [hm] at h
        simp at h
      | none =>
        rw [hm] at h
        have hks : visitL u kids = none := by
          cases hks : visitL u kids with
          | none => rfl
          | some x =>
            obtain ⟨i, ks2⟩ := x
            rw [hks] at h
            simp at h
        intro s hs
        simp only [srcsN, if_pos ht, List.mem_cons] at hs
        rcases hs with rfl | hs
        · exact hm
        · exact visitNone_srcsL u kids hks s hs
    · simp only [visitN, if_neg ht] at h
      have hks : visitL u kids = none := by
        cases hks : visitL u kids with
        | none => rfl
        | some x =>
          obtain ⟨i, ks2⟩ := x
          rw [hks] at h
          simp at h
      intro s hs
      simp only [srcsN, if_neg ht] at hs
      exact visitNone_srcsL u kids hks s hs

/-- List version of `visitNone_srcsN`. -/
theorem visitNone_srcsL : ∀ (u : Str) (ks : List Node), visitL u ks = none →
    ∀ s ∈ srcsL ks, mkInfo s = none
  | _, [], _ => by simp [srcsL]
  | u, k :: ks, h => by
    simp only [visitL] at h
    have hk : visitN u k = none := by
      cases hk : visitN u k with
      | none => rfl
      | some x =>
        obtain ⟨i, k2⟩ := x
        rw [hk] at h
        simp at h
    rw [hk] at h
    have hks : visitL u ks = none := by
      cases hks : visitL u ks with
      | none => rfl
      | some x =>
        obtain ⟨i, ks2⟩ := x
        rw [hks] at h
        simp at h
    intro s hs
    simp only [srcsL, List.mem_append] at hs
    rcases hs with hs | hs
    · exact visitNone_srcsN u k hk s hs
    · exact visitNone_srcsL u ks hks s hs
end

/-- The rewrite `replFC` skips a block with no classifying entry. -/
theorem replFC_append_none (x y : List Str) (u : Str)
    (h : ∀ s ∈ x, mkInfo s = none) : replFC (x ++ y) u = x ++ replFC y u := by
  induction x with
  | nil => simp
  | cons s ss ih =>
    have hs : mkInfo s = none := h s (by simp)
    have ih2 := ih (fun s2 hs2 => h s2 (by simp [hs2]))
    simp [replFC, hs, ih2]

/-- The rewrite `replFC` acts inside a block that holds a classifying entry. -/
theorem replFC_append_found (x y : List Str) (u : Str)
    (h : ∃ s ∈ x, (mkInfo s).isSome = true) : replFC (x ++ y) u = replFC x u ++ y := by
  induction x with
  | nil => simp at h
  | cons s ss ih =>
    by_cases hs : (mkInfo s).isSome = true
    · simp [replFC, hs]
    · have h2 : ∃ s2 ∈ ss, (mkInfo s2).isSome = true := by
        obtain ⟨s2, hmem, hsome⟩ := h
        rcases List.mem_cons.mp hmem with rfl | hmem2
        · exact absurd hsome hs
        · exact ⟨s2, hmem2, hsome⟩
      have ih2 := ih h2
      simp [replFC, hs, ih2]

mutual
/-- A successful visit rewrites exactly the first classifying script
`src` of the pre-order candidate list. -/
theorem visit_srcsN : ∀ (u : Str) (n : Node) (i : P5Info) (n2 : Node),
    visitN u n = some (i, n2) → srcsN n2 = replFC (srcsN n) u
  | _, .comment _, _, _, h => by simp [visitN] at h
  | _, .txt _, _, _, h => by simp [visitN] at h
  | u, .elem t attrs kids, i, n2, h => by
    by_cases ht : t = scriptTag
    · simp only [visitN, if_pos ht] at h
      cases hm : mkInfo (getSrc attrs) with
      | some j =>
        rw [hm] at h
        simp only [Option.some.injEq, Prod.mk.injEq] at h
        obtain ⟨rfl, rfl⟩ := h
        have hne : getSrc attrs ≠ [] := by
          intro hnil
          rw [hnil, mkInfo_nil] at hm
          exact Option.noConfusion hm
        have hany := any_src_of_getSrc_ne attrs hne
        simp only [srcsN, if_pos ht, replFC, hm, Option.isSome_some, if_true]
        rw [getSrc_setSrc attrs u hany]
      | none =>
        rw [hm] at h
        cases hks : visitL u kids with
        | none => rw [hks] at h; simp at h
        | some x =>
          obtain ⟨i2, ks2⟩ := x
          rw [hks] at h
          simp only [Option.some.injEq, Prod.mk.injEq] at h
          obtain ⟨rfl, rfl⟩ := h
          simp only [srcsN, if_pos ht, replFC, hm, Option.isSome_none,
            Bool.false_eq_true, if_false]
          rw [visit_srcsL u kids i2 ks2 hks]
    · simp only [visitN, if_neg ht] at h
      cases hks : visitL u kids with
      | none => rw [hks] at h; simp at h
      | some x =>
        obtain ⟨i2, ks2⟩ := x
        rw [hks] at h
        simp only [Option.some.injEq, Prod.mk.injEq] at h
        obtain ⟨rfl, rfl⟩ := h
        simp only [srcsN, if_neg ht]
        exact visit_srcsL u kids i2 ks2 hks

/-- List version of `visit_srcsN`. -/
theorem visit_srcsL : ∀ (u : Str) (ks : List Node) (i : P5Info) (ks2 : List Node),
    visitL u ks = some (i, ks2) → srcsL ks2 = replFC (srcsL ks) u
  | _, [], _, _, h => by simp [visitL] at h
  | u, k :: ks, i, ks2, h => by
    simp only [visitL] at h
    cases hk : visitN u k with
    | some x =>
      obtain ⟨i2, k2⟩ := x
      rw [hk] at h
      simp only [Option.some.injEq, Prod.mk.injEq] at h
      obtain ⟨rfl, rfl⟩ := h
      simp only [srcsL]
      rw [visit_srcsN u k i2 k2 hk]
      rw [replFC_append_found (srcsN k) (srcsL ks) u]
      obtain ⟨s, hmem, hsome⟩ := visitSome_srcsN u k i2 k2 hk
      exact ⟨s, hmem, hsome⟩
    | none =>
      rw [hk] at h
      cases hks : visitL u ks with
      | none => rw [hks] at h; simp at h
      | some x =>
        obtain ⟨i2, kss⟩ := x
        rw [hks] at h
        simp only [Option.some.injEq, Prod.mk.injEq] at h
        obtain ⟨rfl, rfl⟩ := h
        simp only [srcsL]
        rw [visit_srcsL u ks i2 kss hks]
        rw [replFC_append_none (srcsN k) (srcsL ks) u (visitNone_srcsN u k hk)]

/-- A successful visit implies some classifying `src` in the subtree. -/
theorem visitSome_srcsN : ∀ (u : Str) (n : Node) (i : P5Info) (n2 : Node),
    visitN u n = some (i, n2) → ∃ s ∈ srcsN n, (mkInfo s).isSome = true
  | _, .comment _, _, _, h => by simp [visitN] at h
  | _, .txt _, _, _, h => by simp [visitN] at h
  | u, .elem t attrs kids, i, n2, h => by
    by_cases ht : t = scriptTag
    · simp only [visitN, if_pos ht] at h
      cases hm : mkInfo (getSrc attrs) with
      | some j =>
        exact ⟨getSrc attrs, by simp [srcsN, if_pos ht], by simp [hm]⟩
      | none =>
        rw [hm] at h
        cases hks : visitL u kids with
        | none => rw [hks] at h; simp at h
        | some x =>
          obtain ⟨i2, ks2⟩ := x
          obtain ⟨s, hmem, hsome⟩ := visitSome_srcsL u kids i2 ks2 hks
          exact ⟨s, by simp [srcsN, if_pos ht, List.mem_cons]; right; exact hmem, hsome⟩
    · simp only [visitN, if_neg ht] at h
      cases hks : visitL u kids with
      | none => rw [hks] at h; simp at h
      | some x =>
        obtain ⟨i2, ks2⟩ := x
        obtain ⟨s, hmem, hsome⟩ := visitSome_srcsL u kids i2 ks2 hks
        exact ⟨s, by simp only [srcsN, if_neg ht]; exact hmem, hsome⟩

/-- List version of `visitSome_srcsN`. -/
theorem visitSome_srcsL : ∀ (u : Str) (ks : List Node) (i : P5Info) (ks2 : List Node),
    visitL u ks = some (i, ks2) → ∃ s ∈ srcsL ks, (mkInfo s).isSome = true
  | _, [], _, _, h => by simp [visitL] at h
  | u, k :: ks, i, ks2, h => by
    simp only [visitL] at h
    cases hk : visitN u k with
    | some x =>
      obtain ⟨i2, k2⟩ := x
      obtain ⟨s, hmem, hsome⟩ := visitSome_srcsN u k i2 k2 hk
      exact ⟨s, by simp only [srcsL, List.mem_append]; left; exact hmem, hsome⟩
    | none =>
      rw [hk] at h
      cases hks : visitL u ks with
      | none => rw [hks] at h; simp at h
      | some x =>
        obtain ⟨i2, kss⟩ := x
        obtain ⟨s, hmem, hsome⟩ := visitSome_srcsL u ks i2 kss hks
        exact ⟨s, by simp only [srcsL, List.mem_append]; right; exact hmem, hsome⟩
end

mutual
/-- A visit changes only attributes: the attribute-stripped skeleton is
untouched. -/
theorem visit_stripN : ∀ (u : Str) (n : Node) (i : P5Info) (n2 : Node),
    visitN u n = some (i, n2) → stripN n2 = stripN n
  | _, .comment _, _, _, h => by simp [visitN] at h
  | _, .txt _, _, _, h => by simp [visitN] at h
  | u, .elem t attrs kids, i, n2, h => by
    by_cases ht : t = scriptTag
    · simp only [visitN, if_pos ht] at h
      cases hm : mkInfo (getSrc attrs) with
      | some j =>
        rw [hm] at h
        simp only [Option.some.injEq, Prod.mk.injEq] at h
        obtain ⟨rfl, rfl⟩ := h
        simp [stripN]
      | none =>
        rw [hm] at h
        cases hks : visitL u kids with
        | none => rw [hks] at h; simp at h
        | some x =>
          obtain ⟨i2, ks2⟩ := x
          rw [hks] at h
          simp only [Option.some.injEq, Prod.mk.injEq] at h
          obtain ⟨rfl, rfl⟩ := h
          simp only [stripN]
          rw [visit_stripL u kids i2 ks2 hks]
    · simp only [visitN, if_neg ht] at h
      cases hks : visitL u kids with
      | none => rw [hks] at h; simp at h
      | some x =>
        obtain ⟨i2, ks2⟩ := x
        rw [hks] at h
        simp only [Option.some.injEq, Prod.mk.injEq] at h
        obtain ⟨rfl, rfl⟩ := h
        simp only [stripN]
        rw [visit_stripL u kids i2 ks2 hks]

/-- List version of `visit_stripN`. -/
theorem visit_stripL : ∀ (u : Str) (ks : List Node) (i : P5Info) (ks2 : List Node),
    visitL u ks = some (i, ks2) → stripL ks2 = stripL ks
  | _, [], _, _, h => by simp [visitL] at h
  | u, k :: ks, i, ks2, h => by
    simp only [visitL] at h
    cases hk : visitN u k with
    | some x =>
      obtain ⟨i2, k2⟩ := x
      rw [hk] at h
      simp only [Option.some.injEq, Prod.mk.injEq] at h
      obtain ⟨rfl, rfl⟩ := h
      simp only [stripL]
      rw [visit_stripN u k i2 k2 hk]
    | none =>
      rw [hk] at h
      cases hks : visitL u ks with
      | none => rw [hks] at h; simp at h
      | some x =>
        obtain ⟨i2, kss⟩ := x
        rw [hks] at h
        simp only [Option.some.injEq, Prod.mk.injEq] at h
        obtain ⟨rfl, rfl⟩ := h
        simp only [stripL]
        rw [visit_stripL u ks i2 kss hks]
end

mutual
/-- Stripping attributes does not change the comment list. -/
theorem comments_stripN : ∀ (n : Node), commentsN (stripN n) = commentsN n
  | .comment _ => by simp [stripN, commentsN]
  | .txt _ => by simp [stripN, commentsN]
  | .elem t a kids => by
    simp only [stripN, commentsN]
    exact comments_stripL kids

/-- List version of `comments_stripN`. -/
theorem comments_stripL : ∀ (ks : List Node), commentsL (stripL ks) = commentsL ks
  | [] => by simp [stripL, commentsL]
  | k :: ks => by
    simp only [stripL, commentsL]
    rw [comments_stripN k, comments_stripL ks]
end

/-- Stripping attributes does not change head detection. -/
theorem isHeadEl_strip (n : Node) : isHeadEl (stripN n) = isHeadEl n := by
  cases n <;> simp [stripN, isHeadEl]

/-- Stripping attributes commutes with splitting off the head. -/
theorem splitHeadKids_strip : ∀ (ks : List Node),
    splitHeadKids (stripL ks) =
      (splitHeadKids ks).map (fun x => (stripL x.1, stripN x.2.1, stripL x.2.2))
  | [] => by simp [stripL, splitHeadKids]
  | k :: ks => by
    simp only [stripL, splitHeadKids, isHeadEl_strip]
    by_cases hk : isHeadEl k
    · simp [hk, stripL]
    · simp only [hk, if_false]
      rw [splitHeadKids_strip ks]
      cases h : splitHeadKids ks with
      | none => simp
      | some x => obtain ⟨b, h2, a⟩ := x; simp [stripL]

/-- Marker presence only depends on the attribute-stripped skeleton. -/
theorem hasMarker_strip (n : Node) : hasMarker (stripN n) = hasMarker n := by
  cases n with
  | comment c => simp [stripN, hasMarker, headSplit]
  | txt s => simp [stripN, hasMarker, headSplit]
  | elem t a kids =>
    simp only [stripN, hasMarker, headSplit]
    rw [splitHeadKids_strip kids]
    cases h : splitHeadKids kids with
    | none => simp
    | some x =>
      obtain ⟨b, h2, a2⟩ := x
      show (commentsN (stripN h2)).any isSentTxt = (commentsN h2).any isSentTxt
      rw [comments_stripN h2]

/-- In the updated-existing branch the visit succeeds with the found
classification and the branch returns its rewritten tree. -/
theorem reconcile_visit (root : Node) (v m : Str) (i : P5Info)
    (hinfo : findP5InfoN root = some i) :
    ∃ n2, visitN (urlFor i v m) root = some (i, n2) ∧
      reconcileRoot root v m = (n2, true, methUpd) := by
  unfold findP5InfoN at hinfo
  cases hv : visitN [] root with
  | none =>
    rw [hv] at hinfo
    exact Option.noConfusion hinfo
  | some x =>
    obtain ⟨i0, x0⟩ := x
    rw [hv] at hinfo
    have hinfo2 : i0 = i := Option.some.inj hinfo
    subst hinfo2
    have hf := visit_fstN (urlFor i0 v m) [] root
    rw [hv] at hf
    cases hv2 : visitN (urlFor i0 v m) root with
    | none => rw [hv2] at hf; simp at hf
    | some y =>
      obtain ⟨i2, n2⟩ := y
      rw [hv2] at hf
      have hi2 : i2 = i0 := by simpa using hf
      subst hi2
      refine ⟨n2, rfl, ?_⟩
      rw [reconcileRoot_upd root v m i2 (by rw [findP5InfoN, hv])]
      rw [show urlFor i2 v m = buildScriptURL v m
        ⟨i2.isMinified, if m = cdnTok then some i2.cdnProvider else none⟩ from rfl] at hv2
      rw [hv2]

/-- Claim C4: when both a classifying reference and a sentinel marker are
present, only the existing reference is acted upon (strategy
`updated-existing-script`); the attribute-stripped document skeleton —
in particular every comment node, hence the marker — is unchanged, and
the marker is still present afterwards. -/
theorem claim4_script_precedence (root : Node) (v m : Str) (i : P5Info)
    (hinfo : findP5InfoN root = some i) (hmark : hasMarker root = true) :
    (reconcileRoot root v m).2.2 = methUpd ∧
    (reconcileRoot root v m).2.1 = true ∧
    stripN (reconcileRoot root v m).1 = stripN root ∧
    commentsN (reconcileRoot root v m).1 = commentsN root ∧
    hasMarker (reconcileRoot root v m).1 = true := by
  obtain ⟨n2, hv, hr⟩ := reconcile_visit root v m i hinfo
  have hstrip : stripN n2 = stripN root := visit_stripN (urlFor i v m) root i n2 hv
  have hcomm : commentsN n2 = commentsN root := by
    calc commentsN n2 = commentsN (stripN n2) := (comments_stripN n2).symm
    _ = commentsN (stripN root) := by rw [hstrip]
    _ = commentsN root := comments_stripN root
  have hmark2 : hasMarker n2 = true := by
    calc hasMarker n2 = hasMarker (stripN n2) := (hasMarker_strip n2).symm
    _ = hasMarker (stripN root) := by rw [hstrip]
    _ = hasMarker root := hasMarker_strip root
    _ = true := hmark
  rw [hr]
  exact ⟨rfl, rfl, hstrip, hcomm, hmark2⟩

/-- Witness for C4: a marker comment together with a jsdelivr reference. -/
theorem claim4_witness :
    (findP5InfoN (.elem (lit "html") [] [.elem headTag []
        [.comment (lit " P5JS_SCRIPT_TAG "),
         .elem scriptTag [(srcKey, lit "https://cdn.jsdelivr.net/npm/p5@2.1.0/lib/p5.js")] []]])
      = some ⟨lit "2.1.0", false, lit "jsdelivr"⟩ ∧
     hasMarker (.elem (lit "html") [] [.elem headTag []
        [.comment (lit " P5JS_SCRIPT_TAG "),
         .elem scriptTag [(srcKey, lit "https://cdn.jsdelivr.net/npm/p5@2.1.0/lib/p5.js")] []]])
      = true) ∧
    ((reconcileRoot (.elem (lit "html") [] [.elem headTag []
        [.comment (lit " P5JS_SCRIPT_TAG "),
         .elem scriptTag [(srcKey, lit "https://cdn.jsdelivr.net/npm/p5@2.1.0/lib/p5.js")] []]])
        (lit "2.0.5") cdnTok).2.2 = methUpd ∧
     (reconcileRoot (.elem (lit "html") [] [.elem headTag []
        [.comment (lit " P5JS_SCRIPT_TAG "),
         .elem scriptTag [(srcKey, lit "https://cdn.jsdelivr.net/npm/p5@2.1.0/lib/p5.js")] []]])
        (lit "2.0.5") cdnTok).2.1 = true ∧
     stripN (reconcileRoot (.elem (lit "html") [] [.elem headTag []
        [.comment (lit " P5JS_SCRIPT_TAG "),
         .elem scriptTag [(srcKey, lit "https://cdn.jsdelivr.net/npm/p5@2.1.0/lib/p5.js")] []]])
        (lit "2.0.5") cdnTok).1 =
       stripN (.elem (lit "html") [] [.elem headTag []
        [.comment (lit " P5JS_SCRIPT_TAG "),
         .elem scriptTag [(srcKey, lit "https://cdn.jsdelivr.net/npm/p5@2.1.0/lib/p5.js")] []]]) ∧
     commentsN (reconcileRoot (.elem (lit "html") [] [.elem headTag []
        [.comment (lit " P5JS_SCRIPT_TAG "),
         .elem scriptTag [(srcKey, lit "https://cdn.jsdelivr.net/npm/p5@2.1.0/lib/p5.js")] []]])
        (lit "2.0.5") cdnTok).1 =
       commentsN (.elem (lit "html") [] [.elem headTag []
        [.comment (lit " P5JS_SCRIPT_TAG "),
         .elem scriptTag [(srcKey, lit "https://cdn.jsdelivr.net/npm/p5@2.1.0/lib/p5.js")] []]]) ∧
     hasMarker (reconcileRoot (.elem (lit "html") [] [.elem headTag []
        [.comment (lit " P5JS_SCRIPT_TAG "),
         .elem scriptTag [(srcKey, lit "https://cdn.jsdelivr.net/npm/p5@2.1.0/lib/p5.js")] []]])
        (lit "2.0.5") cdnTok).1 = true) :=
  ⟨⟨by decide, by decide⟩,
   claim4_script_precedence _ (lit "2.0.5") cdnTok ⟨lit "2.1.0", false, lit "jsdelivr"⟩
     (by decide) (by decide)⟩

/-- The rewrite `replFC` puts the url at the index of the first classifying entry. -/
theorem replFC_getElem_eq : ∀ (ss : List Str) (u : Str),
    (∃ s ∈ ss, (mkInfo s).isSome = true) →
    (replFC ss u)[ss.findIdx (fun s => (mkInfo s).isSome)]? = some u
  | [], _, h => by simp at h
  | s :: ss, u, h => by
    by_cases hs : (mkInfo s).isSome = true
    · simp [replFC, hs, List.findIdx_cons]
    · have h2 : ∃ s2 ∈ ss, (mkInfo s2).isSome = true := by
        obtain ⟨s2, hmem, hsome⟩ := h
        rcases List.mem_cons.mp hmem with rfl | hmem2
        · exact absurd hsome hs
        · exact ⟨s2, hmem2, hsome⟩
      have ih := replFC_getElem_eq ss u h2
      simp only [replFC, hs, if_false, List.findIdx_cons,
        Bool.eq_false_iff.mpr hs, cond_false]
      simpa using ih

/-- The rewrite `replFC` leaves every other index unchanged. -/
theorem replFC_getElem_ne : ∀ (ss : List Str) (u : Str) (k : Nat),
    k ≠ ss.findIdx (fun s => (mkInfo s).isSome) →
    (replFC ss u)[k]? = ss[k]?
  | [], _, _, _ => by simp [replFC]
  | s :: ss, u, k, hk => by
    by_cases hs : (mkInfo s).isSome = true
    · have hk0 : k ≠ 0 := by
        intro h0
        apply hk
        rw [h0, List.findIdx_cons, hs, cond_true]
      obtain ⟨k2, rfl⟩ := Nat.exists_eq_succ_of_ne_zero hk0
      simp [replFC, hs]
    · rw [List.findIdx_cons, Bool.eq_false_iff.mpr hs, cond_false] at hk
      cases k with
      | zero => simp [replFC, hs]
      | succ k2 =>
        have hk2 : k2 ≠ ss.findIdx (fun s => (mkInfo s).isSome) := by
          intro h2
          exact hk (by rw [h2])
        have ih := replFC_getElem_ne ss u k2 hk2
        simpa [replFC, hs] using ih

/-- Claim C5: when several reference-bearing elements classify, only the
first in document order is rewritten; every other candidate (in
particular every later one that also classifies) keeps its `src`. -/
theorem claim5_first_script_wins (root : Node) (v m : Str) (i : P5Info)
    (hinfo : findP5InfoN root = some i)
    (hmulti : 2 ≤ ((srcsN root).filter (fun s => (mkInfo s).isSome)).length) :
    srcsN (reconcileRoot root v m).1 = replFC (srcsN root) (urlFor i v m) ∧
    (srcsN (reconcileRoot root v m).1)[(srcsN root).findIdx
      (fun s => (mkInfo s).isSome)]? = some (urlFor i v m) ∧
    (∀ k, k ≠ (srcsN root).findIdx (fun s => (mkInfo s).isSome) →
      (srcsN (reconcileRoot root v m).1)[k]? = (srcsN root)[k]?) := by
  obtain ⟨n2, hv, hr⟩ := reconcile_visit root v m i hinfo
  have hsrcs : srcsN n2 = replFC (srcsN root) (urlFor i v m) :=
    visit_srcsN (urlFor i v m) root i n2 hv
  have hex : ∃ s ∈ srcsN root, (mkInfo s).isSome = true := by
    have hpos : 0 < ((srcsN root).filter (fun s => (mkInfo s).isSome)).length := by omega
    obtain ⟨s, hs⟩ := List.exists_mem_of_length_pos hpos
    exact ⟨s, (List.mem_filter.mp hs).1, (List.mem_filter.mp hs).2⟩
  rw [hr]
  refine ⟨hsrcs, ?_, ?_⟩
  · rw [hsrcs]
    exact replFC_getElem_eq (srcsN root) (urlFor i v m) hex
  · intro k hk
    rw [hsrcs]
    exact replFC_getElem_ne (srcsN root) (urlFor i v m) k hk

/-- Witness for C5: the first (jsdelivr) reference is rewritten, the
second (unpkg) reference keeps its `src`. -/
theorem claim5_witness :
    (findP5InfoN w5root = some ⟨lit "2.1.0", false, lit "jsdelivr"⟩ ∧
     2 ≤ ((srcsN w5root).filter (fun s => (mkInfo s).isSome)).length) ∧
    (srcsN (reconcileRoot w5root (lit "2.0.5") cdnTok).1 =
       replFC (srcsN w5root)
         (urlFor ⟨lit "2.1.0", false, lit "jsdelivr"⟩ (lit "2.0.5") cdnTok) ∧
     (srcsN (reconcileRoot w5root (lit "2.0.5") cdnTok).1)[(srcsN w5root).findIdx
       (fun s => (mkInfo s).isSome)]? =
       some (urlFor ⟨lit "2.1.0", false, lit "jsdelivr"⟩ (lit "2.0.5") cdnTok) ∧
     (srcsN (reconcileRoot w5root (lit "2.0.5") cdnTok).1)[1]? = (srcsN w5root)[1]?) := by
  have h := claim5_first_script_wins w5root (lit "2.0.5") cdnTok
    ⟨lit "2.1.0", false, lit "jsdelivr"⟩ (by decide) (by decide)
  exact ⟨⟨by decide, by decide⟩, h.1, h.2.1, h.2.2 1 (by decide)⟩

/-- In local mode the synthesized URL is the fixed local path with the
carried minification flag, independently of the version. -/
theorem urlFor_local (i : P5Info) (v : Str) :
    urlFor i v localTok =
      (if i.isMinified then lit "sketch/lib/p5.min.js" else lit "sketch/lib/p5.js") := by
  show buildScriptURL v localTok ⟨i.isMinified, none⟩ = _
  cases hmin : i.isMinified with
  | false => rfl
  | true => rfl

/-- Claim C9: reconciling an existing CDN reference with `mode = local`
yields the fixed local path (plain or minified), with no provider host
embedded anywhere in it and no dependence on the version argument. -/
theorem claim9_local_no_provider (root : Node) (v v2 : Str) (i : P5Info)
    (hinfo : findP5InfoN root = some i) :
    (reconcileRoot root v localTok).2.2 = methUpd ∧
    srcsN (reconcileRoot root v localTok).1 = replFC (srcsN root) (urlFor i v localTok) ∧
    urlFor i v localTok =
      (if i.isMinified then lit "sketch/lib/p5.min.js" else lit "sketch/lib/p5.js") ∧
    hasSub (lit "cdn.jsdelivr.net") (urlFor i v localTok) = false ∧
    hasSub (lit "cdnjs.cloudflare.com") (urlFor i v localTok) = false ∧
    hasSub (lit "unpkg.com") (urlFor i v localTok) = false ∧
    reconcileRoot root v localTok = reconcileRoot root v2 localTok := by
  obtain ⟨n2, hv, hr⟩ := reconcile_visit root v localTok i hinfo
  obtain ⟨n3, hv2, hr2⟩ := reconcile_visit root v2 localTok i hinfo
  have hurl := urlFor_local i v
  have hurl2 := urlFor_local i v2
  have hsame : urlFor i v localTok = urlFor i v2 localTok := by rw [hurl, hurl2]
  refine ⟨by rw [hr], ?_, hurl, ?_, ?_, ?_, ?_⟩
  · rw [hr]
    exact visit_srcsN (urlFor i v localTok) root i n2 hv
  · rw [hurl]; cases hmin : i.isMinified <;> decide
  · rw [hurl]; cases hmin : i.isMinified <;> decide
  · rw [hurl]; cases hmin : i.isMinified <;> decide
  · rw [hsame] at hv
    rw [hv] at hv2
    have hn : n3 = n2 := by
      have := Option.some.inj hv2
      exact (Prod.mk.injEq _ _ _ _ ▸ this).2.symm
    rw [hr, hr2, hn]

/-- Witness for C9 at a minified unpkg reference. -/
theorem claim9_witness :
    (findP5InfoN w9root = some ⟨lit "2.1.0", true, lit "unpkg"⟩) ∧
    ((reconcileRoot w9root (lit "9.9.9") localTok).2.2 = methUpd ∧
     srcsN (reconcileRoot w9root (lit "9.9.9") localTok).1 =
       replFC (srcsN w9root) (urlFor ⟨lit "2.1.0", true, lit "unpkg"⟩ (lit "9.9.9") localTok) ∧
     urlFor ⟨lit "2.1.0", true, lit "unpkg"⟩ (lit "9.9.9") localTok =
       (if (true : Bool) then lit "sketch/lib/p5.min.js" else lit "sketch/lib/p5.js") ∧
     hasSub (lit "cdn.jsdelivr.net")
       (urlFor ⟨lit "2.1.0", true, lit "unpkg"⟩ (lit "9.9.9") localTok) = false ∧
     hasSub (lit "cdnjs.cloudflare.com")
       (urlFor ⟨lit "2.1.0", true, lit "unpkg"⟩ (lit "9.9.9") localTok) = false ∧
     hasSub (lit "unpkg.com")
       (urlFor ⟨lit "2.1.0", true, lit "unpkg"⟩ (lit "9.9.9") localTok) = false ∧
     reconcileRoot w9root (lit "9.9.9") localTok = reconcileRoot w9root (lit "1.0.0") localTok) :=
  ⟨by decide,
   claim9_local_no_provider w9root (lit "9.9.9") (lit "1.0.0")
     ⟨lit "2.1.0", true, lit "unpkg"⟩ (by decide)⟩

/-- Claim C8: with no classifiable reference, the marker branch fires
exactly when some comment inside the head has trimmed text equal (case
sensitively) to the sentinel; the marker is then replaced in its parent
by a script element whose URL carries no prior preferences (default
provider, non-minified: `buildScriptURL v m ⟨false, none⟩`). -/
theorem claim8_marker_branch (root : Node) (v m : Str)
    (hinfo : findP5InfoN root = none) :
    ((reconcileRoot root v m).2.2 = methMarker ↔ hasMarker root = true) ∧
    (hasMarker root = true →
      ∃ b h a h2, headSplit root = some (b, h, a) ∧
        replMarkN (mkScript (buildScriptURL v m ⟨false, none⟩)) h = some h2 ∧
        reconcileRoot root v m = (withKids root (b ++ h2 :: a), true, methMarker)) := by
  cases hhead : headSplit root with
  | none =>
    have hm : hasMarker root = false := by
      unfold hasMarker
      rw [hhead]
    have hr := reconcileRoot_noHead root v m hinfo hhead
    constructor
    · rw [hr, hm]
      show (methNoHead = methMarker) ↔ (false = true)
      decide
    · intro h
      rw [hm] at h
      exact absurd h (by simp)
  | some x =>
    obtain ⟨b, h, a⟩ := x
    have hm : hasMarker root = (commentsN h).any isSentTxt := by
      unfold hasMarker
      rw [hhead]
    cases hsent : (commentsN h).any isSentTxt with
    | true =>
      have hsome : (replMarkN (mkScript (buildScriptURL v m ⟨false, none⟩)) h).isSome = true := by
        rw [replMark_isSomeN, hsent]
      cases hrm : replMarkN (mkScript (buildScriptURL v m ⟨false, none⟩)) h with
      | none => rw [hrm] at hsome; simp at hsome
      | some h2 =>
        have hr := reconcileRoot_marker root v m b h h2 a hinfo hhead hrm
        constructor
        · rw [hr, hm, hsent]
          show (methMarker = methMarker) ↔ (true = true)
          decide
        · intro _
          exact ⟨b, h, a, h2, rfl, hrm, hr⟩
    | false =>
      have hnone : replMarkN (mkScript (buildScriptURL v m ⟨false, none⟩)) h = none := by
        have hsome := replMark_isSomeN (mkScript (buildScriptURL v m ⟨false, none⟩)) h
        rw [hsent] at hsome
        cases hrm : replMarkN (mkScript (buildScriptURL v m ⟨false, none⟩)) h with
        | none => rfl
        | some h2 => rw [hrm] at hsome; simp at hsome
      have hr := reconcileRoot_insert root v m b h a hinfo hhead hnone
      constructor
      · rw [hr, hm, hsent]
        show (methIns = methMarker) ↔ (false = true)
        decide
      · intro hcontra
        rw [hm, hsent] at hcontra
        exact absurd hcontra (by simp)

/-- Witness for C8: the nested, whitespace-padded sentinel comment is
found and replaced. -/
theorem claim8_witness :
    (findP5InfoN w8root = none ∧ hasMarker w8root = true) ∧
    (((reconcileRoot w8root (lit "2.0.5") cdnTok).2.2 = methMarker ↔
        hasMarker w8root = true) ∧
     ∃ b h a h2, headSplit w8root = some (b, h, a) ∧
       replMarkN (mkScript (buildScriptURL (lit "2.0.5") cdnTok ⟨false, none⟩)) h = some h2 ∧
       reconcileRoot w8root (lit "2.0.5") cdnTok = (withKids w8root (b ++ h2 :: a), true, methMarker)) := by
  have hc := claim8_marker_branch w8root (lit "2.0.5") cdnTok (by decide)
  exact ⟨⟨by decide, by decide⟩, hc.1, hc.2 (by decide)⟩

/-! String lemmas for the pattern catalog -/

/-- Dropping a literal from itself plus a tail. -/
theorem dropLit_self : ∀ (p r : Str), dropLit p (p ++ r) = some r
  | [], r => rfl
  | c :: ps, r => by
    simp only [List.cons_append, dropLit, if_pos rfl]
    exact dropLit_self ps r

/-- A slash-free block is taken whole by `takeWhile`. -/
theorem takeWhile_noSlash : ∀ (V : Str) (R : Str), noSlash V = true →
    (V ++ '/' :: R).takeWhile (fun c => decide (c ≠ '/')) = V
  | [], R, _ => by simp [List.takeWhile]
  | c :: V, R, h => by
    have hc : (c ≠ '/') := by
      have := (List.all_eq_true.mp h) c (by simp)
      simpa using this
    have hV : noSlash V = true := by
      apply List.all_eq_true.mpr
      intro x hx
      exact (List.all_eq_true.mp h) x (by simp [hx])
    simp only [List.cons_append, List.takeWhile_cons, decide_eq_true_eq]
    rw [if_pos hc, takeWhile_noSlash V R hV]

/-- A slash-free block is dropped whole by `dropWhile`. -/
theorem dropWhile_noSlash : ∀ (V : Str) (R : Str), noSlash V = true →
    (V ++ '/' :: R).dropWhile (fun c => decide (c ≠ '/')) = '/' :: R
  | [], R, _ => by simp [List.dropWhile]
  | c :: V, R, h => by
    have hc : (c ≠ '/') := by
      have := (List.all_eq_true.mp h) c (by simp)
      simpa using this
    have hV : noSlash V = true := by
      apply List.all_eq_true.mpr
      intro x hx
      exact (List.all_eq_true.mp h) x (by simp [hx])
    simp only [List.cons_append, List.dropWhile_cons, decide_eq_true_eq]
    rw [if_pos hc]
    exact dropWhile_noSlash V R hV

/-- The version capture takes exactly the slash-free block. -/
theorem capSlash_append (V R : Str) (hns : noSlash V = true) (hne : V ≠ []) :
    capSlash (V ++ '/' :: R) = some (V, R) := by
  unfold capSlash
  rw [dropWhile_noSlash V R hns]
  rw [takeWhile_noSlash V R hns]
  show (if V = [] then none else some (V, R)) = some (V, R)
  rw [if_neg hne]

/-- A version token of digits and dots contains no slash. -/
theorem noSlash_of_verChar (V : Str) (h : V.all verChar = true) : noSlash V = true := by
  apply List.all_eq_true.mpr
  intro c hc
  have hv := (List.all_eq_true.mp h) c hc
  simp only [verChar, Bool.or_eq_true, decide_eq_true_eq] at hv
  simp only [decide_eq_true_eq]
  rcases hv with hd | hd
  · intro he
    rw [he] at hd
    exact absurd hd (by decide)
  · intro he
    rw [he] at hd
    exact absurd hd (by decide)

/-- The minification tail is one of two literals. -/
theorem tailMin_cases (f : Str) (b : Bool) (h : tailMin f = some b) :
    (f = lit "min.js" ∧ b = true) ∨ (f = lit "js" ∧ b = false) := by
  unfold tailMin at h
  by_cases h1 : f = lit "min.js"
  · rw [if_pos h1] at h
    exact Or.inl ⟨h1, (Option.some.inj h).symm⟩
  · rw [if_neg h1] at h
    by_cases h2 : f = lit "js"
    · rw [if_pos h2] at h
      exact Or.inr ⟨h2, (Option.some.inj h).symm⟩
    · rw [if_neg h2] at h
      exact Option.noConfusion h

/-- A prefix test only sees characters of the tested string. -/
theorem beginsWith_mem : ∀ (p s : Str) (c : Char),
    beginsWith p s = true → c ∈ p → c ∈ s
  | [], _, _, _, hc => by simp at hc
  | q :: ps, [], c, h, _ => by simp [beginsWith] at h
  | q :: ps, d :: cs, c, h, hc => by
    simp only [beginsWith, Bool.and_eq_true, decide_eq_true_eq] at h
    obtain ⟨rfl, h2⟩ := h
    rcases List.mem_cons.mp hc with rfl | hc2
    · exact List.mem_cons_self _ _
    · exact List.mem_cons_of_mem _ (beginsWith_mem ps cs c h2 hc2)

/-- A substring hit only sees characters of the searched string. -/
theorem hasSub_mem : ∀ (p s : Str) (c : Char),
    hasSub p s = true → c ∈ p → c ∈ s
  | p, [], c, h, hc => by
    simp only [hasSub, List.isEmpty_iff] at h
    subst h
    simp at hc
  | p, d :: cs, c, h, hc => by
    simp only [hasSub, Bool.or_eq_true] at h
    rcases h with h | h
    · exact beginsWith_mem p (d :: cs) c h hc
    · exact List.mem_cons_of_mem _ (hasSub_mem p cs c h hc)

/-- A pattern with a character the string lacks cannot occur. -/
theorem hasSub_false_of_missing (p s : Str) (c : Char) (hc : c ∈ p) (hs : c ∉ s) :
    hasSub p s = false := by
  cases h : hasSub p s with
  | false => rfl
  | true => exact absurd (hasSub_mem p s c h hc) hs

/-- The fallback on `match[1]` keeps a nonempty capture. -/
theorem orLocal_some (V : Str) (hne : V ≠ []) : orLocal (some V) = V := by
  unfold orLocal
  show (if V = [] then lit "local" else V) = V
  rw [if_neg hne]

/-- Characters of a digits-and-dots token are never letters. -/
theorem not_mem_of_verChar (V : Str) (h : V.all verChar = true) (c : Char)
    (hc : verChar c = false) : c ∉ V := by
  intro hmem
  have := (List.all_eq_true.mp h) c hmem
  rw [hc] at this
  exact Bool.noConfusion this

/-! Classification of synthesized CDN URLs -/

/-- Pattern 1 accepts a synthesized jsdelivr URL and captures its parts. -/
theorem matchJsdelivr_shape (V f : Str) (b : Bool)
    (hns : noSlash V = true) (hne : V ≠ []) (hf : tailMin f = some b) :
    matchJsdelivr (jsdShape V f) = some (V, b) := by
  show (match capSlash (V ++ ('/' :: (lit "lib/p5." ++ f))) with
        | none => none
        | some (v, r3) =>
          match dropLit (lit "lib/p5.") r3 with
          | none => none
          | some r4 =>
            match tailMin r4 with
            | none => none
            | some b2 => some (v, b2)) = some (V, b)
  rw [capSlash_append V (lit "lib/p5." ++ f) hns hne]
  show (match dropLit (lit "lib/p5.") (lit "lib/p5." ++ f) with
        | none => none
        | some r4 =>
          match tailMin r4 with
          | none => none
          | some b2 => some (V, b2)) = some (V, b)
  rw [dropLit_self]
  show (match tailMin f with
        | none => none
        | some b2 => some (V, b2)) = some (V, b)
  rw [hf]

/-- Pattern 1 rejects any cdnjs-host URL. -/
theorem matchJsdelivr_on_cdnjs (X : Str) :
    matchJsdelivr (lit "https://cdnjs.cloudflare.com/ajax/libs/p5.js/" ++ X) = none := rfl

/-- Pattern 1 rejects any unpkg-host URL. -/
theorem matchJsdelivr_on_unpkg (X : Str) :
    matchJsdelivr (lit "https://unpkg.com/p5@" ++ X) = none := rfl

/-- Pattern 2 accepts a synthesized plain cdnjs URL. -/
theorem matchCdnjs_shape (V : Str) (hns : noSlash V = true) (hne : V ≠ []) :
    matchCdnjs (cdnjsShape V) = some V := by
  show (match capSlash (V ++ ('/' :: lit "p5.js")) with
        | none => none
        | some (v, r3) =>
          if r3 = lit "p5.min.js" then some v
          else if r3 = lit "p5.js" then some v
          else none) = some V
  rw [capSlash_append V (lit "p5.js") hns hne]
  show (if lit "p5.js" = lit "p5.min.js" then some V
        else if lit "p5.js" = lit "p5.js" then some V
        else none) = some V
  rw [if_neg (by decide), if_pos (by decide)]

/-- Pattern 2 rejects any unpkg-host URL. -/
theorem matchCdnjs_on_unpkg (X : Str) :
    matchCdnjs (lit "https://unpkg.com/p5@" ++ X) = none := rfl

/-- Pattern 3 accepts a synthesized unpkg URL and captures its parts. -/
theorem matchUnpkg_shape (V f : Str) (b : Bool)
    (hns : noSlash V = true) (hne : V ≠ []) (hf : tailMin f = some b) :
    matchUnpkg (unpkgShape V f) = some (V, b) := by
  show (match capSlash (V ++ ('/' :: (lit "lib/p5." ++ f))) with
        | none => none
        | some (v, r3) =>
          match dropLit (lit "lib/p5.") r3 with
          | none => none
          | some r4 =>
            match tailMin r4 with
            | none => none
            | some b2 => some (v, b2)) = some (V, b)
  rw [capSlash_append V (lit "lib/p5." ++ f) hns hne]
  show (match dropLit (lit "lib/p5.") (lit "lib/p5." ++ f) with
        | none => none
        | some r4 =>
          match tailMin r4 with
          | none => none
          | some b2 => some (V, b2)) = some (V, b)
  rw [dropLit_self]
  show (match tailMin f with
        | none => none
        | some b2 => some (V, b2)) = some (V, b)
  rw [hf]

/-- First-match classification of a synthesized jsdelivr URL. -/
theorem classify_jsd (V f : Str) (b : Bool)
    (hns : noSlash V = true) (hne : V ≠ []) (hf : tailMin f = some b) :
    classify (jsdShape V f) = some (some V, b) := by
  unfold classify
  rw [matchJsdelivr_shape V f b hns hne hf]

/-- First-match classification of a synthesized plain cdnjs URL. -/
theorem classify_cdnjs (V : Str) (hns : noSlash V = true) (hne : V ≠ []) :
    classify (cdnjsShape V) = some (some V, false) := by
  unfold classify
  rw [show matchJsdelivr (cdnjsShape V) = none from matchJsdelivr_on_cdnjs _]
  rw [show matchCdnjs (cdnjsShape V) = some V from matchCdnjs_shape V hns hne]

/-- First-match classification of a synthesized unpkg URL. -/
theorem classify_unpkg (V f : Str) (b : Bool)
    (hns : noSlash V = true) (hne : V ≠ []) (hf : tailMin f = some b) :
    classify (unpkgShape V f) = some (some V, b) := by
  unfold classify
  rw [show matchJsdelivr (unpkgShape V f) = none from matchJsdelivr_on_unpkg _]
  rw [show matchCdnjs (unpkgShape V f) = none from matchCdnjs_on_unpkg _]
  rw [matchUnpkg_shape V f b hns hne hf]

/-- Provider detection on a synthesized jsdelivr URL. -/
theorem detectCDN_jsd (X : Str) :
    detectCDN (lit "https://cdn.jsdelivr.net/npm/p5@" ++ X) = lit "jsdelivr" := rfl

/-- Provider detection on a synthesized plain cdnjs URL with a
digits-and-dots version. -/
theorem detectCDN_cdnjs (V : Str) (hver : V.all verChar = true) :
    detectCDN (cdnjsShape V) = lit "cdnjs" := by
  have h1 : hasSub (lit "cdn.jsdelivr.net") (cdnjsShape V) = false := by
    apply hasSub_false_of_missing _ _ 'v' (by decide)
    unfold cdnjsShape
    simp only [List.mem_append, List.mem_cons]
    intro hmem
    rcases hmem with hmem | hmem | hmem
    · exact absurd hmem (by decide)
    · exact absurd hmem (not_mem_of_verChar V hver 'v' (by decide))
    · exact absurd hmem (by decide)
  unfold detectCDN
  rw [h1]
  rfl

/-- Provider detection on a synthesized unpkg URL with a digits-and-dots
version and one of the two filename tails. -/
theorem detectCDN_unpkg (V f : Str) (b : Bool) (hver : V.all verChar = true)
    (hf : tailMin f = some b) :
    detectCDN (unpkgShape V f) = lit "unpkg" := by
  have hfc := tailMin_cases f b hf
  have h1 : hasSub (lit "cdn.jsdelivr.net") (unpkgShape V f) = false := by
    apply hasSub_false_of_missing _ _ 'v' (by decide)
    unfold unpkgShape
    simp only [List.mem_append, List.mem_cons]
    intro hmem
    rcases hmem with hmem | hmem | hmem | hmem
    · exact absurd hmem (by decide)
    · exact absurd hmem (not_mem_of_verChar V hver 'v' (by decide))
    · exact absurd hmem (by decide)
    · rcases hfc with ⟨rfl, -⟩ | ⟨rfl, -⟩
      · exact absurd hmem (by decide)
      · exact absurd hmem (by decide)
  have h2 : hasSub (lit "cdnjs.cloudflare.com") (unpkgShape V f) = false := by
    apply hasSub_false_of_missing _ _ 'f' (by decide)
    unfold unpkgShape
    simp only [List.mem_append, List.mem_cons]
    intro hmem
    rcases hmem with hmem | hmem | hmem | hmem
    · exact absurd hmem (by decide)
    · exact absurd hmem (not_mem_of_verChar V hver 'f' (by decide))
    · exact absurd hmem (by decide)
    · rcases hfc with ⟨rfl, -⟩ | ⟨rfl, -⟩
      · exact absurd hmem (by decide)
      · exact absurd hmem (by decide)
  unfold detectCDN
  rw [h1, h2]
  rfl

/-- Classification record of a synthesized jsdelivr URL. -/
theorem mkInfo_jsd (V f : Str) (b : Bool)
    (hver : V.all verChar = true) (hne : V ≠ []) (hf : tailMin f = some b) :
    mkInfo (jsdShape V f) = some ⟨V, b, lit "jsdelivr"⟩ := by
  unfold mkInfo
  rw [classify_jsd V f b (noSlash_of_verChar V hver) hne hf]
  show some (P5Info.mk (orLocal (some V)) b (detectCDN (jsdShape V f))) =
    some (P5Info.mk V b (lit "jsdelivr"))
  rw [orLocal_some V hne]
  rw [show detectCDN (jsdShape V f) = lit "jsdelivr" from detectCDN_jsd _]

/-- Classification record of a synthesized plain cdnjs URL. -/
theorem mkInfo_cdnjs (V : Str) (hver : V.all verChar = true) (hne : V ≠ []) :
    mkInfo (cdnjsShape V) = some ⟨V, false, lit "cdnjs"⟩ := by
  unfold mkInfo
  rw [classify_cdnjs V (noSlash_of_verChar V hver) hne]
  show some (P5Info.mk (orLocal (some V)) false (detectCDN (cdnjsShape V))) =
    some (P5Info.mk V false (lit "cdnjs"))
  rw [orLocal_some V hne, detectCDN_cdnjs V hver]

/-- Classification record of a synthesized unpkg URL. -/
theorem mkInfo_unpkg (V f : Str) (b : Bool)
    (hver : V.all verChar = true) (hne : V ≠ []) (hf : tailMin f = some b) :
    mkInfo (unpkgShape V f) = some ⟨V, b, lit "unpkg"⟩ := by
  unfold mkInfo
  rw [classify_unpkg V f b (noSlash_of_verChar V hver) hne hf]
  show some (P5Info.mk (orLocal (some V)) b (detectCDN (unpkgShape V f))) =
    some (P5Info.mk V b (lit "unpkg"))
  rw [orLocal_some V hne, detectCDN_unpkg V f b hver hf]

/-- The two filename tails satisfy `tailMin`. -/
theorem tailMin_if (b : Bool) : tailMin (if b then lit "min.js" else lit "js") = some b := by
  cases b <;> rfl

/-- A synthesized jsdelivr URL in canonical shape. -/
theorem build_jsd (V : Str) (b : Bool) :
    buildScriptURL V cdnTok ⟨b, some (lit "jsdelivr")⟩ =
      jsdShape V (if b then lit "min.js" else lit "js") := by
  cases b with
  | false =>
    show (lit "https://cdn.jsdelivr.net/npm/p5@" ++ V ++ lit "/lib/" ++ lit "p5.js" : Str) = _
    unfold jsdShape
    simp only [List.append_assoc]
    rw [show (lit "/lib/" ++ lit "p5.js" : Str) =
      '/' :: (lit "lib/p5." ++ (if false then lit "min.js" else lit "js")) from by decide]
  | true =>
    show (lit "https://cdn.jsdelivr.net/npm/p5@" ++ V ++ lit "/lib/" ++ lit "p5.min.js" : Str) = _
    unfold jsdShape
    simp only [List.append_assoc]
    rw [show (lit "/lib/" ++ lit "p5.min.js" : Str) =
      '/' :: (lit "lib/p5." ++ (if true then lit "min.js" else lit "js")) from by decide]
    rfl

/-- A synthesized plain cdnjs URL in canonical shape. -/
theorem build_cdnjs (V : Str) :
    buildScriptURL V cdnTok ⟨false, some (lit "cdnjs")⟩ = cdnjsShape V := by
  show (lit "https://cdnjs.cloudflare.com/ajax/libs/p5.js/" ++ V ++ lit "/" ++ lit "p5.js" : Str) = _
  unfold cdnjsShape
  simp only [List.append_assoc]
  rw [show (lit "/" ++ lit "p5.js" : Str) = '/' :: lit "p5.js" from by decide]

/-- A synthesized unpkg URL in canonical shape. -/
theorem build_unpkg (V : Str) (b : Bool) :
    buildScriptURL V cdnTok ⟨b, some (lit "unpkg")⟩ =
      unpkgShape V (if b then lit "min.js" else lit "js") := by
  cases b with
  | false =>
    show (lit "https://unpkg.com/p5@" ++ V ++ lit "/lib/" ++ lit "p5.js" : Str) = _
    unfold unpkgShape
    simp only [List.append_assoc]
    rw [show (lit "/lib/" ++ lit "p5.js" : Str) =
      '/' :: (lit "lib/p5." ++ (if false then lit "min.js" else lit "js")) from by decide]
  | true =>
    show (lit "https://unpkg.com/p5@" ++ V ++ lit "/lib/" ++ lit "p5.min.js" : Str) = _
    unfold unpkgShape
    simp only [List.append_assoc]
    rw [show (lit "/lib/" ++ lit "p5.min.js" : Str) =
      '/' :: (lit "lib/p5." ++ (if true then lit "min.js" else lit "js")) from by decide]
    rfl

/-- An unrecognized provider string falls into the default (jsdelivr)
template. -/
theorem build_other (V prov : Str) (b : Bool)
    (h1 : prov ≠ lit "jsdelivr") (h2 : prov ≠ lit "cdnjs") (h3 : prov ≠ lit "unpkg") :
    buildScriptURL V cdnTok ⟨b, some prov⟩ =
      buildScriptURL V cdnTok ⟨b, some (lit "jsdelivr")⟩ := by
  cases b with
  | false =>
    show (if prov = lit "jsdelivr" then
            lit "https://cdn.jsdelivr.net/npm/p5@" ++ V ++ lit "/lib/" ++ lit "p5.js"
          else if prov = lit "cdnjs" then
            lit "https://cdnjs.cloudflare.com/ajax/libs/p5.js/" ++ V ++ lit "/" ++ lit "p5.js"
          else if prov = lit "unpkg" then
            lit "https://unpkg.com/p5@" ++ V ++ lit "/lib/" ++ lit "p5.js"
          else
            lit "https://cdn.jsdelivr.net/npm/p5@" ++ V ++ lit "/lib/" ++ lit "p5.js") = _
    rw [if_neg h1, if_neg h2, if_neg h3]
    rfl
  | true =>
    show (if prov = lit "jsdelivr" then
            lit "https://cdn.jsdelivr.net/npm/p5@" ++ V ++ lit "/lib/" ++ lit "p5.min.js"
          else if prov = lit "cdnjs" then
            lit "https://cdnjs.cloudflare.com/ajax/libs/p5.js/" ++ V ++ lit "/" ++ lit "p5.min.js"
          else if prov = lit "unpkg" then
            lit "https://unpkg.com/p5@" ++ V ++ lit "/lib/" ++ lit "p5.min.js"
          else
            lit "https://cdn.jsdelivr.net/npm/p5@" ++ V ++ lit "/lib/" ++ lit "p5.min.js") = _
    rw [if_neg h1, if_neg h2, if_neg h3]
    rfl

/-- The URL written in the updated-existing branch re-classifies, and
re-synthesizing from that classification reproduces it — as long as the
original preferences are not (minified, cdnjs), whose minification flag
the cdnjs pattern drops. -/
theorem mkInfo_urlFor_stable (i : P5Info) (V : Str) (hne : V ≠ [])
    (hver : V.all verChar = true)
    (hx : ¬(i.isMinified = true ∧ i.cdnProvider = lit "cdnjs")) :
    ∃ j, mkInfo (urlFor i V cdnTok) = some j ∧ urlFor j V cdnTok = urlFor i V cdnTok := by
  have hu : urlFor i V cdnTok =
      buildScriptURL V cdnTok ⟨i.isMinified, some i.cdnProvider⟩ := rfl
  by_cases hj : i.cdnProvider = lit "jsdelivr"
  · refine ⟨⟨V, i.isMinified, lit "jsdelivr"⟩, ?_, ?_⟩
    · rw [hu, hj, build_jsd V i.isMinified]
      exact mkInfo_jsd V _ i.isMinified hver hne (tailMin_if i.isMinified)
    · rw [hu, hj]
      rfl
  · by_cases hc : i.cdnProvider = lit "cdnjs"
    · have hmin : i.isMinified = false := by
        cases hm : i.isMinified with
        | false => rfl
        | true => exact absurd ⟨hm, hc⟩ hx
      refine ⟨⟨V, false, lit "cdnjs"⟩, ?_, ?_⟩
      · rw [hu, hc, hmin, build_cdnjs V]
        exact mkInfo_cdnjs V hver hne
      · rw [hu, hc, hmin]
        rfl
    · by_cases hk : i.cdnProvider = lit "unpkg"
      · refine ⟨⟨V, i.isMinified, lit "unpkg"⟩, ?_, ?_⟩
        · rw [hu, hk, build_unpkg V i.isMinified]
          exact mkInfo_unpkg V _ i.isMinified hver hne (tailMin_if i.isMinified)
        · rw [hu, hk]
          rfl
      · refine ⟨⟨V, i.isMinified, lit "jsdelivr"⟩, ?_, ?_⟩
        · rw [hu, build_other V i.cdnProvider i.isMinified hj hc hk,
            build_jsd V i.isMinified]
          exact mkInfo_jsd V _ i.isMinified hver hne (tailMin_if i.isMinified)
        · rw [hu, build_other V i.cdnProvider i.isMinified hj hc hk]
          rfl

/-- The URL written with default preferences (marker and insertion
branches) re-classifies, and re-synthesizing from that classification
reproduces it. -/
theorem mkInfo_base_stable (V : Str) (hne : V ≠ []) (hver : V.all verChar = true) :
    ∃ j, mkInfo (buildScriptURL V cdnTok ⟨false, none⟩) = some j ∧
      urlFor j V cdnTok = buildScriptURL V cdnTok ⟨false, none⟩ := by
  refine ⟨⟨V, false, lit "jsdelivr"⟩, ?_, ?_⟩
  · rw [show buildScriptURL V cdnTok ⟨false, none⟩ =
      buildScriptURL V cdnTok ⟨false, some (lit "jsdelivr")⟩ from rfl, build_jsd V false]
    exact mkInfo_jsd V _ false hver hne (tailMin_if false)
  · rfl

/-! Second-pass visit lemmas -/

mutual
/-- Re-visiting a rewritten tree with a classifying url finds the same
(rewritten) script and rewrites it identically. -/
theorem visit_againN : ∀ (u : Str) (n : Node) (i j : P5Info) (n2 : Node),
    visitN u n = some (i, n2) → mkInfo u = some j → visitN u n2 = some (j, n2)
  | _, .comment _, _, _, _, h, _ => by simp [visitN] at h
  | _, .txt _, _, _, _, h, _ => by simp [visitN] at h
  | u, .elem t attrs kids, i, j, n2, h, hj => by
    by_cases ht : t = scriptTag
    · simp only [visitN, if_pos ht] at h
      cases hm : mkInfo (getSrc attrs) with
      | some i2 =>
        rw [hm] at h
        simp only [Option.some.injEq, Prod.mk.injEq] at h
        obtain ⟨rfl, rfl⟩ := h
        have hne : getSrc attrs ≠ [] := by
          intro hnil
          rw [hnil, mkInfo_nil] at hm
          exact Option.noConfusion hm
        have hany := any_src_of_getSrc_ne attrs hne
        simp only [visitN, if_pos ht]
        rw [getSrc_setSrc attrs u hany, hj, setSrc_setSrc attrs u u]
      | none =>
        rw [hm] at h
        cases hks : visitL u kids with
        | none => rw [hks] at h; simp at h
        | some x =>
          obtain ⟨i2, ks2⟩ := x
          rw [hks] at h
          simp only [Option.some.injEq, Prod.mk.injEq] at h
          obtain ⟨rfl, rfl⟩ := h
          have ih := visit_againL u kids i2 j ks2 hks hj
          simp only [visitN, if_pos ht]
          rw [hm, ih]
    · simp only [visitN, if_neg ht] at h
      cases hks : visitL u kids with
      | none => rw [hks] at h; simp at h
      | some x =>
        obtain ⟨i2, ks2⟩ := x
        rw [hks] at h
        simp only [Option.some.injEq, Prod.mk.injEq] at h
        obtain ⟨rfl, rfl⟩ := h
        have ih := visit_againL u kids i2 j ks2 hks hj
        simp only [visitN, if_neg ht]
        rw [ih]

/-- List version of `visit_againN`. -/
theorem visit_againL : ∀ (u : Str) (ks : List Node) (i j : P5Info) (ks2 : List Node),
    visitL u ks = some (i, ks2) → mkInfo u = some j → visitL u ks2 = some (j, ks2)
  | _, [], _, _, _, h, _ => by simp [visitL] at h
  | u, k :: ks, i, j, ks2, h, hj => by
    simp only [visitL] at h
    cases hk : visitN u k with
    | some x =>
      obtain ⟨i2, k2⟩ := x
      rw [hk] at h
      simp only [Option.some.injEq, Prod.mk.injEq] at h
      obtain ⟨rfl, rfl⟩ := h
      have ih := visit_againN u k i2 j k2 hk hj
      simp only [visitL]
      rw [ih]
    | none =>
      rw [hk] at h
      cases hks : visitL u ks with
      | none => rw [hks] at h; simp at h
      | some x =>
        obtain ⟨i2, kss⟩ := x
        rw [hks] at h
        simp only [Option.some.injEq, Prod.mk.injEq] at h
        obtain ⟨rfl, rfl⟩ := h
        have ih := visit_againL u ks i2 j kss hks hj
        simp only [visitL]
        rw [hk, ih]
end

/-- A failed visit on a cons splits into failures. -/
theorem visitL_cons_none (u : Str) (k : Node) (ks : List Node)
    (h : visitL u (k :: ks) = none) : visitN u k = none ∧ visitL u ks = none := by
  simp only [visitL] at h
  cases hk : visitN u k with
  | some x =>
    obtain ⟨i, k2⟩ := x
    rw [hk] at h
    exact Option.noConfusion h
  | none =>
    rw [hk] at h
    cases hks : visitL u ks with
    | some x =>
      obtain ⟨i, kss⟩ := x
      rw [hks] at h
      exact Option.noConfusion h
    | none => exact ⟨rfl, rfl⟩

/-- A failed visit on an append splits into failures. -/
theorem visitL_append_split (u : Str) : ∀ (x y : List Node),
    visitL u (x ++ y) = none → visitL u x = none ∧ visitL u y = none
  | [], y, h => ⟨rfl, h⟩
  | k :: kt, y, h => by
    rw [List.cons_append] at h
    obtain ⟨hk, hrest⟩ := visitL_cons_none u k (kt ++ y) h
    obtain ⟨hkt, hy⟩ := visitL_append_split u kt y hrest
    refine ⟨?_, hy⟩
    simp only [visitL]
    rw [hk, hkt]

/-- A successful visit after a failing block. -/
theorem visitL_append_some (u : Str) : ∀ (x y : List Node) (j : P5Info) (ys : List Node),
    visitL u x = none → visitL u y = some (j, ys) →
    visitL u (x ++ y) = some (j, x ++ ys)
  | [], y, j, ys, _, hy => by simpa using hy
  | k :: kt, y, j, ys, hx, hy => by
    obtain ⟨hk, hkt⟩ := visitL_cons_none u k kt hx
    have ih := visitL_append_some u kt y j ys hkt hy
    simp only [List.cons_append, visitL, List.append_eq]
    rw [hk, ih]

/-- A failed visit on an element node yields failed pieces. -/
theorem visitN_elem_none (u t : Str) (attrs : List (Str × Str)) (kids : List Node)
    (h : visitN u (.elem t attrs kids) = none) :
    visitL u kids = none ∧ (t = scriptTag → mkInfo (getSrc attrs) = none) := by
  by_cases ht : t = scriptTag
  · simp only [visitN, if_pos ht] at h
    cases hm : mkInfo (getSrc attrs) with
    | some i =>
      rw [hm] at h
      exact Option.noConfusion h
    | none =>
      rw [hm] at h
      cases hks : visitL u kids with
      | some x =>
        obtain ⟨i, ks2⟩ := x
        rw [hks] at h
        exact Option.noConfusion h
      | none => exact ⟨rfl, fun _ => rfl⟩
  · simp only [visitN, if_neg ht] at h
    cases hks : visitL u kids with
    | some x =>
      obtain ⟨i, ks2⟩ := x
      rw [hks] at h
      exact Option.noConfusion h
    | none => exact ⟨rfl, fun hc => absurd hc ht⟩

/-- Visiting a freshly synthesized script element with its own url. -/
theorem visit_mkScript (u : Str) (j : P5Info) (hj : mkInfo u = some j) :
    visitN u (mkScript u) = some (j, mkScript u) := by
  show (match mkInfo (getSrc (setSrc [] u)) with
        | some info => some (info, Node.elem scriptTag (setSrc (setSrc [] u) u) [])
        | none =>
          match visitL u [] with
          | some (i, kids2) => some (i, Node.elem scriptTag (setSrc [] u) kids2)
          | none => none) = some (j, mkScript u)
  rw [show getSrc (setSrc [] u) = u from rfl, hj, setSrc_setSrc [] u u]
  rfl

/-- A failed search fails for every rewriting url. -/
theorem visitN_none_anyUrl (root : Node) (u : Str) (h : findP5InfoN root = none) :
    visitN u root = none := by
  unfold findP5InfoN at h
  cases hv : visitN [] root with
  | some x =>
    obtain ⟨i, n2⟩ := x
    rw [hv] at h
    exact Option.noConfusion h
  | none =>
    have hf := visit_fstN u [] root
    rw [hv] at hf
    cases hu2 : visitN u root with
    | none => rfl
    | some y =>
      obtain ⟨i, n2⟩ := y
      rw [hu2] at hf
      simp at hf

/-- A successful visit determines the search result. -/
theorem findP5InfoN_some_of_visit (u : Str) (n : Node) (j : P5Info) (n2 : Node)
    (h : visitN u n = some (j, n2)) : findP5InfoN n = some j := by
  unfold findP5InfoN
  have hf := visit_fstN [] u n
  rw [h] at hf
  cases hv : visitN [] n with
  | none => rw [hv] at hf; simp at hf
  | some y =>
    obtain ⟨j2, m2⟩ := y
    rw [hv] at hf
    have : j2 = j := by simpa using hf
    rw [this]

mutual
/-- After replacing the marker with a self-classifying script, a re-visit
finds exactly that script and leaves the tree unchanged. -/
theorem visit_after_replN : ∀ (u : Str) (r n n2 : Node) (j : P5Info),
    visitN u n = none → replMarkN r n = some n2 → visitN u r = some (j, r) →
    visitN u n2 = some (j, n2)
  | u, r, .comment c, n2, j, _, hrm, hr => by
    simp only [replMarkN] at hrm
    split at hrm
    · have : r = n2 := Option.some.inj hrm
      subst this
      exact hr
    · exact Option.noConfusion hrm
  | _, _, .txt _, _, _, _, hrm, _ => by simp [replMarkN] at hrm
  | u, r, .elem t attrs kids, n2, j, hn, hrm, hr => by
    simp only [replMarkN] at hrm
    cases hrk : replMarkL r kids with
    | none => rw [hrk] at hrm; exact Option.noConfusion hrm
    | some kids2 =>
      rw [hrk] at hrm
      have hn2 : n2 = .elem t attrs kids2 := (Option.some.inj hrm).symm
      subst hn2
      obtain ⟨hkids, hscript⟩ := visitN_elem_none u t attrs kids hn
      have ihl := visit_after_replL u r kids kids2 j hkids hrk hr
      by_cases ht : t = scriptTag
      · simp only [visitN, if_pos ht]
        rw [hscript ht, ihl]
      · simp only [visitN, if_neg ht]
        rw [ihl]

/-- List version of `visit_after_replN`. -/
theorem visit_after_replL : ∀ (u : Str) (r : Node) (ks ks2 : List Node) (j : P5Info),
    visitL u ks = none → replMarkL r ks = some ks2 → visitN u r = some (j, r) →
    visitL u ks2 = some (j, ks2)
  | _, _, [], _, _, _, hrm, _ => by simp [replMarkL] at hrm
  | u, r, k :: kt, ks2, j, hn, hrm, hr => by
    obtain ⟨hk, hkt⟩ := visitL_cons_none u k kt hn
    simp only [replMarkL] at hrm
    cases hrk : replMarkN r k with
    | some k2 =>
      rw [hrk] at hrm
      have hks : ks2 = k2 :: kt := (Option.some.inj hrm).symm
      subst hks
      have ihn := visit_after_replN u r k k2 j hk hrk hr
      simp only [visitL]
      rw [ihn]
    | none =>
      rw [hrk] at hrm
      cases hrkt : replMarkL r kt with
      | none => rw [hrkt] at hrm; exact Option.noConfusion hrm
      | some kt2 =>
        rw [hrkt] at hrm
        have hks : ks2 = k :: kt2 := (Option.some.inj hrm).symm
        subst hks
        have ihl := visit_after_replL u r kt kt2 j hkt hrkt hr
        simp only [visitL]
        rw [hk, ihl]
end

/-- Visiting a head element whose first child is a freshly synthesized
script. -/
theorem visit_prepend_script (u : Str) (j : P5Info) (ha : List (Str × Str))
    (hkids : List Node) (hj : mkInfo u = some j) :
    visitN u (.elem headTag ha (mkScript u :: hkids)) =
      some (j, .elem headTag ha (mkScript u :: hkids)) := by
  simp only [visitN, if_neg (show ¬(headTag = scriptTag) from by decide)]
  have hcons : visitL u (mkScript u :: hkids) = some (j, mkScript u :: hkids) := by
    simp only [visitL]
    rw [visit_mkScript u j hj]
  rw [hcons]

/-- An element visit from a successful child-list visit. -/
theorem visitN_elem_of_kids (u rt : Str) (ra : List (Str × Str)) (kids : List Node)
    (j : P5Info) (kids2 : List Node)
    (hscript : rt = scriptTag → mkInfo (getSrc ra) = none)
    (hkids : visitL u kids = some (j, kids2)) :
    visitN u (.elem rt ra kids) = some (j, .elem rt ra kids2) := by
  by_cases ht : rt = scriptTag
  · simp only [visitN, if_pos ht]
    rw [hscript ht, hkids]
  · simp only [visitN, if_neg ht]
    rw [hkids]

/-- Splitting off the head recovers the original child list. -/
theorem splitHeadKids_join : ∀ (ks b : List Node) (h : Node) (a : List Node),
    splitHeadKids ks = some (b, h, a) → ks = b ++ h :: a
  | [], _, _, _, hs => by simp [splitHeadKids] at hs
  | k :: kt, b, h, a, hs => by
    by_cases hk : isHeadEl k
    · simp only [splitHeadKids, if_pos hk] at hs
      obtain ⟨rfl, rfl, rfl⟩ : ([] : List Node) = b ∧ k = h ∧ kt = a := by
        simpa using hs
      simp
    · simp only [splitHeadKids, if_neg hk] at hs
      cases hrec : splitHeadKids kt with
      | none => rw [hrec] at hs; exact Option.noConfusion hs
      | some x =>
        obtain ⟨b2, h2, a2⟩ := x
        rw [hrec] at hs
        obtain ⟨rfl, rfl, rfl⟩ : k :: b2 = b ∧ h2 = h ∧ a2 = a := by
          simpa using hs
        have hjoin := splitHeadKids_join kt b2 h2 a2 hrec
        rw [hjoin]
        simp

/-- A document with a head decomposes around it. -/
theorem headSplit_elem_decomp (root : Node) (b : List Node) (h : Node) (a : List Node)
    (hs : headSplit root = some (b, h, a)) :
    ∃ rt ra, root = .elem rt ra (b ++ h :: a) := by
  cases root with
  | elem t at2 kids =>
    exact ⟨t, at2, by rw [splitHeadKids_join kids b h a hs]⟩
  | comment c => simp [headSplit] at hs
  | txt s => simp [headSplit] at hs

/-- Stability: after a mutating cdn-mode reconciliation with a plain
digits-and-dots version (and an original preference other than the
minified-cdnjs combination the catalog cannot re-read), a second
reconciliation with the same arguments finds the freshly written
reference, rewrites it to the same value, and reports
`updated-existing-script`. -/
theorem reconcile_stable (root : Node) (V : Str) (hne : V ≠ [])
    (hver : V.all verChar = true)
    (hupd : (reconcileRoot root V cdnTok).2.1 = true)
    (hpref : ∀ i, findP5InfoN root = some i →
      ¬(i.isMinified = true ∧ i.cdnProvider = lit "cdnjs")) :
    reconcileRoot (reconcileRoot root V cdnTok).1 V cdnTok =
      ((reconcileRoot root V cdnTok).1, true, methUpd) := by
  cases hfi : findP5InfoN root with
  | some i =>
    obtain ⟨n2, hv, hr⟩ := reconcile_visit root V cdnTok i hfi
    obtain ⟨j, hmk, hstab⟩ := mkInfo_urlFor_stable i V hne hver (hpref i hfi)
    have hagain := visit_againN (urlFor i V cdnTok) root i j n2 hv hmk
    have hfind := findP5InfoN_some_of_visit (urlFor i V cdnTok) n2 j n2 hagain
    obtain ⟨n3, hv3, hr3⟩ := reconcile_visit n2 V cdnTok j hfind
    rw [hstab] at hv3
    rw [hagain] at hv3
    have hn : n3 = n2 := (congrArg Prod.snd (Option.some.inj hv3)).symm
    rw [hr]
    show reconcileRoot n2 V cdnTok = (n2, true, methUpd)
    rw [hr3, hn]
  | none =>
    cases hhead : headSplit root with
    | none =>
      have hr := reconcileRoot_noHead root V cdnTok hfi hhead
      rw [hr] at hupd
      simp at hupd
    | some x =>
      obtain ⟨b, h, a⟩ := x
      obtain ⟨rt, ra, hroot⟩ := headSplit_elem_decomp root b h a hhead
      obtain ⟨j, hmk, hstab⟩ := mkInfo_base_stable V hne hver
      have hvnone := visitN_none_anyUrl root (buildScriptURL V cdnTok ⟨false, none⟩) hfi
      rw [hroot] at hvnone
      obtain ⟨hkidsnone, hscript⟩ := visitN_elem_none _ rt ra _ hvnone
      obtain ⟨hb, hha⟩ := visitL_append_split _ b (h :: a) hkidsnone
      obtain ⟨hh, hta⟩ := visitL_cons_none _ h a hha
      cases hrm : replMarkN (mkScript (buildScriptURL V cdnTok ⟨false, none⟩)) h with
      | some h2 =>
        have hr := reconcileRoot_marker root V cdnTok b h h2 a hfi hhead hrm
        have hvh2 := visit_after_replN (buildScriptURL V cdnTok ⟨false, none⟩)
          (mkScript (buildScriptURL V cdnTok ⟨false, none⟩)) h h2 j hh hrm
          (visit_mkScript (buildScriptURL V cdnTok ⟨false, none⟩) j hmk)
        have hcons : visitL (buildScriptURL V cdnTok ⟨false, none⟩) (h2 :: a) =
            some (j, h2 :: a) := by
          simp only [visitL]
          rw [hvh2]
        have happ := visitL_append_some (buildScriptURL V cdnTok ⟨false, none⟩)
          b (h2 :: a) j (h2 :: a) hb hcons
        have hroot1 := visitN_elem_of_kids (buildScriptURL V cdnTok ⟨false, none⟩)
          rt ra (b ++ h2 :: a) j (b ++ h2 :: a) hscript happ
        have hwk : withKids root (b ++ h2 :: a) = .elem rt ra (b ++ h2 :: a) := by
          rw [hroot]
          rfl
        have hfind := findP5InfoN_some_of_visit (buildScriptURL V cdnTok ⟨false, none⟩)
          (.elem rt ra (b ++ h2 :: a)) j (.elem rt ra (b ++ h2 :: a)) hroot1
        obtain ⟨n3, hv3, hr3⟩ := reconcile_visit (.elem rt ra (b ++ h2 :: a)) V cdnTok j hfind
        rw [hstab] at hv3
        rw [hroot1] at hv3
        have hn : n3 = .elem rt ra (b ++ h2 :: a) :=
          (congrArg Prod.snd (Option.some.inj hv3)).symm
        rw [hr, hwk]
        show reconcileRoot (.elem rt ra (b ++ h2 :: a)) V cdnTok =
          (.elem rt ra (b ++ h2 :: a), true, methUpd)
        rw [hr3, hn]
      | none =>
        have hr := reconcileRoot_insert root V cdnTok b h a hfi hhead hrm
        obtain ⟨ha2, hk2, hhel⟩ := isHeadEl_elem h (headSplit_isHead root b h a hhead)
        have hvh2 : visitN (buildScriptURL V cdnTok ⟨false, none⟩)
            (prependKid (mkScript (buildScriptURL V cdnTok ⟨false, none⟩)) h) =
            some (j, prependKid (mkScript (buildScriptURL V cdnTok ⟨false, none⟩)) h) := by
          rw [hhel]
          exact visit_prepend_script (buildScriptURL V cdnTok ⟨false, none⟩) j ha2 hk2 hmk
        have hcons : visitL (buildScriptURL V cdnTok ⟨false, none⟩)
            (prependKid (mkScript (buildScriptURL V cdnTok ⟨false, none⟩)) h :: a) =
            some (j, prependKid (mkScript (buildScriptURL V cdnTok ⟨false, none⟩)) h :: a) := by
          simp only [visitL]
          rw [hvh2]
        have happ := visitL_append_some (buildScriptURL V cdnTok ⟨false, none⟩)
          b (prependKid (mkScript (buildScriptURL V cdnTok ⟨false, none⟩)) h :: a) j
          (prependKid (mkScript (buildScriptURL V cdnTok ⟨false, none⟩)) h :: a) hb hcons
        have hroot1 := visitN_elem_of_kids (buildScriptURL V cdnTok ⟨false, none⟩)
          rt ra (b ++ prependKid (mkScript (buildScriptURL V cdnTok ⟨false, none⟩)) h :: a) j
          (b ++ prependKid (mkScript (buildScriptURL V cdnTok ⟨false, none⟩)) h :: a)
          hscript happ
        have hwk : withKids root
            (b ++ prependKid (mkScript (buildScriptURL V cdnTok ⟨false, none⟩)) h :: a) =
            .elem rt ra (b ++ prependKid (mkScript (buildScriptURL V cdnTok ⟨false, none⟩)) h :: a) := by
          rw [hroot]
          rfl
        have hfind := findP5InfoN_some_of_visit (buildScriptURL V cdnTok ⟨false, none⟩)
          _ j _ hroot1
        obtain ⟨n3, hv3, hr3⟩ := reconcile_visit
          (.elem rt ra (b ++ prependKid (mkScript (buildScriptURL V cdnTok ⟨false, none⟩)) h :: a))
          V cdnTok j hfind
        rw [hstab] at hv3
        rw [hroot1] at hv3
        have hn : n3 = .elem rt ra
            (b ++ prependKid (mkScript (buildScriptURL V cdnTok ⟨false, none⟩)) h :: a) :=
          (congrArg Prod.snd (Option.some.inj hv3)).symm
        rw [hr, hwk]
        show reconcileRoot
            (.elem rt ra (b ++ prependKid (mkScript (buildScriptURL V cdnTok ⟨false, none⟩)) h :: a))
            V cdnTok =
          (.elem rt ra (b ++ prependKid (mkScript (buildScriptURL V cdnTok ⟨false, none⟩)) h :: a),
           true, methUpd)
        rw [hr3, hn]

/-- Claim C1 (amended): in cdn mode, with a nonempty digits-and-dots
version token, for any document that the first call actually changed and
whose classified preferences are not the minified-cdnjs combination,
running reconcile twice with the same arguments produces the same final
markup both times, and the second call reports `changed = true` with
strategy `updated-existing-script`.  (The second call receives any parse
of the output of the first call: a document whose document element is the
mutated tree.) -/
theorem claim1_idempotent_cdn (s s2 : Str) (pre pre2 : List Node) (root : Node) (V : Str)
    (hne : V ≠ []) (hver : V.all verChar = true)
    (hupd : (updateP5Script s ⟨pre, root⟩ V cdnTok).updated = true)
    (hpref : ∀ i, findP5InfoN root = some i →
      ¬(i.isMinified = true ∧ i.cdnProvider = lit "cdnjs")) :
    (updateP5Script s2 ⟨pre2, (reconcileRoot root V cdnTok).1⟩ V cdnTok).html =
      (updateP5Script s ⟨pre, root⟩ V cdnTok).html ∧
    (updateP5Script s2 ⟨pre2, (reconcileRoot root V cdnTok).1⟩ V cdnTok).updated = true ∧
    (updateP5Script s2 ⟨pre2, (reconcileRoot root V cdnTok).1⟩ V cdnTok).method = methUpd := by
  have hupd2 : (reconcileRoot root V cdnTok).2.1 = true := by
    unfold updateP5Script at hupd
    rcases hrc : reconcileRoot root V cdnTok with ⟨r1, u1, m1⟩
    rw [hrc] at hupd
    exact hupd
  have hst := reconcile_stable root V hne hver hupd2 hpref
  have h2 : updateP5Script s2 ⟨pre2, (reconcileRoot root V cdnTok).1⟩ V cdnTok =
      ⟨serializeDoc (reconcileRoot root V cdnTok).1, true, methUpd⟩ := by
    unfold updateP5Script
    rw [show (Document.mk pre2 (reconcileRoot root V cdnTok).1).root =
      (reconcileRoot root V cdnTok).1 from rfl]
    rw [hst]
    rfl
  have h1 : (updateP5Script s ⟨pre, root⟩ V cdnTok).html =
      serializeDoc (reconcileRoot root V cdnTok).1 := by
    unfold updateP5Script
    rcases hrc : reconcileRoot root V cdnTok with ⟨r1, u1, m1⟩
    rw [hrc] at hupd2
    have hu1 : u1 = true := hupd2
    subst hu1
    rfl
  rw [h2, h1]
  exact ⟨rfl, rfl, rfl⟩

/-- Counterexample to C1 as stated: in `local` mode the first call
rewrites the reference to `sketch/lib/p5.js`, which no catalog pattern
recognizes, so the second call inserts a second script instead of
updating the existing one — the markup differs and the strategy is not
`updated-existing-script`. -/
theorem claim1_counterexample :
    ¬((updateP5Script
          (updateP5Script (lit "x") ⟨[], c1root⟩ (lit "2.0.5") localTok).html
          ⟨[], (reconcileRoot c1root (lit "2.0.5") localTok).1⟩
          (lit "2.0.5") localTok).html =
        (updateP5Script (lit "x") ⟨[], c1root⟩ (lit "2.0.5") localTok).html ∧
      (updateP5Script
          (updateP5Script (lit "x") ⟨[], c1root⟩ (lit "2.0.5") localTok).html
          ⟨[], (reconcileRoot c1root (lit "2.0.5") localTok).1⟩
          (lit "2.0.5") localTok).updated = true ∧
      (updateP5Script
          (updateP5Script (lit "x") ⟨[], c1root⟩ (lit "2.0.5") localTok).html
          ⟨[], (reconcileRoot c1root (lit "2.0.5") localTok).1⟩
          (lit "2.0.5") localTok).method = methUpd) := by
  decide

/-- Witness for the amended C1 at a cdnjs-referencing document in cdn
mode. -/
theorem claim1_witness :
    ((lit "2.0.5" : Str) ≠ [] ∧ (lit "2.0.5").all verChar = true ∧
     (updateP5Script (lit "x") ⟨[], c1wroot⟩ (lit "2.0.5") cdnTok).updated = true) ∧
    ((updateP5Script (lit "y") ⟨[], (reconcileRoot c1wroot (lit "2.0.5") cdnTok).1⟩
        (lit "2.0.5") cdnTok).html =
      (updateP5Script (lit "x") ⟨[], c1wroot⟩ (lit "2.0.5") cdnTok).html ∧
     (updateP5Script (lit "y") ⟨[], (reconcileRoot c1wroot (lit "2.0.5") cdnTok).1⟩
        (lit "2.0.5") cdnTok).updated = true ∧
     (updateP5Script (lit "y") ⟨[], (reconcileRoot c1wroot (lit "2.0.5") cdnTok).1⟩
        (lit "2.0.5") cdnTok).method = methUpd) := by
  refine ⟨⟨by decide, by decide, by decide⟩, ?_⟩
  apply claim1_idempotent_cdn (lit "x") (lit "y") [] [] c1wroot (lit "2.0.5")
    (by decide) (by decide) (by decide)
  intro i hi
  have hii : (⟨lit "2.1.0", false, lit "cdnjs"⟩ : P5Info) = i := Option.some.inj hi
  subst hii
  simp
